import Mathlib

/-!
# Verification of the swarm simulation core

A shallow embedding, over the real numbers, of the core of the micromissiles
swarm simulator: the agent flight-phase state machine and kinematics
(`src/simulation/swarm/agent.cc`), the interceptor guidance law and
acceleration model (`src/simulation/swarm/interceptor/*.cc`), the ideal
geometric sensor (`src/simulation/swarm/sensor/ideal_sensor.cc`), the two
interceptor-threat assignment strategies
(`src/simulation/swarm/assignment/*.cc`), and the thread-pool barrier
(`src/utils/thread_pool.cc`).

C++ `double` arithmetic is modelled by exact real arithmetic; `Eigen::Vector3d`
by a record of three reals.  The numerical ODE integrator invoked by
`Agent::Step` is an external collaborator (boost::odeint) and is modelled as an
explicit integrator parameter; only the state-space right-hand side that the
code hands to it is embedded.
-/

namespace Swarm

/-- 3D vector over the reals, modelling `Eigen::Vector3d`. -/
structure Vec3 where
  x : ℝ
  y : ℝ
  z : ℝ

namespace Vec3

/-- Componentwise addition. -/
def add (a b : Vec3) : Vec3 := ⟨a.x + b.x, a.y + b.y, a.z + b.z⟩

/-- Componentwise subtraction. -/
def sub (a b : Vec3) : Vec3 := ⟨a.x - b.x, a.y - b.y, a.z - b.z⟩

/-- Scalar multiplication. -/
def smul (c : ℝ) (a : Vec3) : Vec3 := ⟨c * a.x, c * a.y, c * a.z⟩

/-- Negation. -/
def neg (a : Vec3) : Vec3 := ⟨-a.x, -a.y, -a.z⟩

/-- Dot product (`Eigen::Vector3d::dot`). -/
def dot (a b : Vec3) : ℝ := a.x * b.x + a.y * b.y + a.z * b.z

/-- Cross product (`Eigen::Vector3d::cross`). -/
def cross (a b : Vec3) : Vec3 :=
  ⟨a.y * b.z - a.z * b.y, a.z * b.x - a.x * b.z, a.x * b.y - a.y * b.x⟩

/-- Squared Euclidean norm (`Eigen::Vector3d::squaredNorm`). -/
def normSq (a : Vec3) : ℝ := a.x * a.x + a.y * a.y + a.z * a.z

/-- Euclidean norm (`Eigen::Vector3d::norm`). -/
noncomputable def norm (a : Vec3) : ℝ := Real.sqrt a.normSq

/-- The zero vector (`Eigen::Vector3d::Zero`). -/
def zero : Vec3 := ⟨0, 0, 0⟩

/-- Normalization (`Eigen::Vector3d::normalize` / `normalized`): divide by the
norm.  The zero vector is mapped to the zero vector; this is the documented
deterministic fallback for the degenerate (stationary-agent) case. -/
noncomputable def normalize (a : Vec3) : Vec3 :=
  if a.norm = 0 then zero else smul (1 / a.norm) a

end Vec3

/-- Flight phase of an agent (`FlightPhase` in the agent proto; the six
declared values used throughout `agent.h`/`agent.cc`). -/
inductive FlightPhase where
  | INITIALIZED
  | READY
  | BOOST
  | MIDCOURSE
  | TERMINAL
  | TERMINATED
deriving DecidableEq, Repr

namespace FlightPhase

/-- Position of a phase in the forward lifecycle order
INITIALIZED → READY → BOOST → MIDCOURSE → TERMINAL → TERMINATED. -/
def idx : FlightPhase → ℕ
  | INITIALIZED => 0
  | READY => 1
  | BOOST => 2
  | MIDCOURSE => 3
  | TERMINAL => 4
  | TERMINATED => 5

end FlightPhase

/-- Kinematic state (`State` proto): position, velocity, acceleration. -/
structure State where
  position : Vec3
  velocity : Vec3
  acceleration : Vec3

/-- The static configuration fields of an agent read by the embedded code
(`StaticConfig` proto). -/
structure StaticConfig where
  mass : ℝ
  crossSectionalArea : ℝ
  dragCoefficient : ℝ
  liftDragRatio : ℝ
  boostTime : ℝ
  boostAcceleration : ℝ
  maxReferenceAcceleration : ℝ
  referenceSpeed : ℝ
  hitRadius : ℝ
  killProbability : ℝ

/-- The dynamic configuration fields of an agent read by the embedded code
(`DynamicConfig` proto). -/
structure DynamicConfig where
  launchTime : ℝ
  sensorFrequency : ℝ

/-- A state-history record (`StateHistory::Record`): time, hit flag, state. -/
structure HistoryRecord where
  t : ℝ
  hit : Bool
  state : State

namespace constants

/-- Air density in kg/m^3 (`kAirDensity`). -/
noncomputable def kAirDensity : ℝ := 1.204

/-- Air density scale height in km (`kAirDensityScaleHeight`). -/
noncomputable def kAirDensityScaleHeight : ℝ := 10.4

/-- Standard gravity in m/s^2 (`kGravity`). -/
noncomputable def kGravity : ℝ := 9.80665

/-- Earth mean radius in meters (`kEarthMeanRadius`). -/
noncomputable def kEarthMeanRadius : ℝ := 6378137

/-- `CalculateAirDensityAtAltitude`. -/
noncomputable def CalculateAirDensityAtAltitude (altitude : ℝ) : ℝ :=
  kAirDensity * Real.exp (-altitude / (kAirDensityScaleHeight * 1000))

/-- `CalculateGravityAtAltitude`. -/
noncomputable def CalculateGravityAtAltitude (altitude : ℝ) : ℝ :=
  kGravity * (kEarthMeanRadius / (kEarthMeanRadius + altitude)) ^ 2

end constants

/-- The agent entity (`Agent` in `agent.h`), restricted to the fields read or
written by the embedded member functions.  The `target_` raw pointer to the
live assigned target and the owned `target_model_` are not part of this
record: the pointer is modelled by passing the target agent (an `Option
Agent`) explicitly to the functions that dereference it, and the owned model
is carried alongside in the micromissile configuration below. -/
structure Agent where
  tCreation : ℝ
  state : State
  stateUpdateTime : ℝ
  flightPhase : FlightPhase
  staticConfig : StaticConfig
  dynamicConfig : DynamicConfig
  /-- `hit_`: whether the agent has hit or been hit. -/
  hit : Bool
  /-- `state_history_`, most recent record first (`back()` is the head). -/
  history : List HistoryRecord
  /-- `sensor_update_time_` of `Micromissile`. -/
  sensorUpdateTime : ℝ

namespace Agent

/-- Principal axes of an agent (`Agent::PrincipalAxes`). -/
structure PrincipalAxes where
  roll : Vec3
  pitch : Vec3
  yaw : Vec3

/-- `Agent::GetPosition`. -/
def GetPosition (a : Agent) : Vec3 := a.state.position

/-- `Agent::GetVelocity`. -/
def GetVelocity (a : Agent) : Vec3 := a.state.velocity

/-- `Agent::GetSpeed`. -/
noncomputable def GetSpeed (a : Agent) : ℝ := a.GetVelocity.norm

/-- `Agent::GetPrincipalAxes`: roll is the velocity vector, pitch is
`(roll.y, -roll.x, 0)` (starboard), yaw is `pitch × roll`. -/
def GetPrincipalAxes (a : Agent) : PrincipalAxes :=
  let roll := a.GetVelocity
  let pitch : Vec3 := ⟨roll.y, -roll.x, 0⟩
  let yaw := pitch.cross roll
  ⟨roll, pitch, yaw⟩

/-- `Agent::GetNormalizedPrincipalAxes`. -/
noncomputable def GetNormalizedPrincipalAxes (a : Agent) : PrincipalAxes :=
  let axes := a.GetPrincipalAxes
  ⟨axes.roll.normalize, axes.pitch.normalize, axes.yaw.normalize⟩

/-- `Agent::GetGravity`: `(0, 0, -CalculateGravityAtAltitude(z))`. -/
noncomputable def GetGravity (a : Agent) : Vec3 :=
  ⟨0, 0, -constants.CalculateGravityAtAltitude a.state.position.z⟩

/-- `Agent::GetDynamicPressure`: `airDensity(z) * speed^2 / 2`. -/
noncomputable def GetDynamicPressure (a : Agent) : ℝ :=
  constants.CalculateAirDensityAtAltitude a.state.position.z * a.GetSpeed ^ 2 / 2

/-- `Agent::has_launched`. -/
def has_launched (a : Agent) : Prop := a.flightPhase ≠ FlightPhase.INITIALIZED

/-- `Agent::has_terminated`. -/
def has_terminated (a : Agent) : Prop := a.flightPhase = FlightPhase.TERMINATED

/-- `Agent::MarkAsHit`: set the hit flag, back-fill the hit flag of the most
recent history record, and force the TERMINATED phase. -/
def MarkAsHit (a : Agent) : Agent :=
  { a with
    hit := true
    history := match a.history with
      | [] => []
      | r :: rest => { r with hit := true } :: rest
    flightPhase := FlightPhase.TERMINATED }

/-- `Agent::HasHitTarget` for an agent whose `target_` pointer is `tgt`
(`none` models a null pointer): false with no assigned target, otherwise true
iff the distance to the target is at most the hit radius. -/
noncomputable def HasHitTarget (a : Agent) (tgt : Option Agent) : Prop :=
  match tgt with
  | none => False
  | some target =>
      (target.GetPosition.sub a.GetPosition).norm ≤ a.staticConfig.hitRadius

/-- `Agent::SetState`: replace the state and the state stored in the most
recent history record. -/
def SetState (a : Agent) (s : State) : Agent :=
  { a with
    state := s
    history := match a.history with
      | [] => []
      | r :: rest => { r with state := s } :: rest }

/-- The flight-phase recomputation at the top of `Agent::Update`
(agent.cc:134-139): promote to BOOST once past launch time, and further to
MIDCOURSE once past launch plus boost time.  The member `flight_phase_` is
overwritten by each satisfied guard in order. -/
noncomputable def updateFlightPhase (a : Agent) (t : ℝ) : FlightPhase :=
  let launchTime := a.dynamicConfig.launchTime
  let boostTime := a.staticConfig.boostTime
  let p1 := if t ≥ a.tCreation + launchTime then FlightPhase.BOOST else a.flightPhase
  if t ≥ a.tCreation + launchTime + boostTime then FlightPhase.MIDCOURSE else p1

end Agent

/-- Sensor output (`SensorOutput` proto), restricted to the spherical fields
and their rates as written by `IdealSensor`.  `positionCartesian` is the raw
relative position. -/
structure SensorOutput where
  positionCartesian : Vec3
  range : ℝ
  azimuth : ℝ
  elevation : ℝ
  rangeRate : ℝ
  azimuthRate : ℝ
  elevationRate : ℝ

namespace IdealSensor

/-- `IdealSensor::SensePosition`: relative position in Cartesian and spherical
(range/azimuth/elevation) coordinates about the sensing agent's normalized
principal-axis frame.  When the projection onto the roll-pitch plane vanishes
in both components, the azimuth keeps its default value 0 (the documented
degenerate case). -/
noncomputable def SensePosition (agent target : Agent) :
    Vec3 × ℝ × ℝ × ℝ :=
  let axes := agent.GetNormalizedPrincipalAxes
  let relPos := target.GetPosition.sub agent.GetPosition
  let range := relPos.norm
  -- Project the relative position vector onto the yaw axis.
  let projYaw := Vec3.smul (relPos.dot axes.yaw) axes.yaw
  -- Project the relative position vector onto the roll-pitch plane.
  let projRollPitch := relPos.sub projYaw
  -- Determine the sign of the elevation.
  let elevationSign : ℝ := if projYaw.dot axes.yaw ≥ 0 then 1 else -1
  let elevation := elevationSign * Real.arctan (projYaw.norm / projRollPitch.norm)
  -- Project the roll-pitch-plane projection onto the roll axis.
  let projRoll := Vec3.smul (projRollPitch.dot axes.roll) axes.roll
  -- Find the projection onto the pitch axis.
  let projPitch := projRollPitch.sub projRoll
  let azimuth :=
    if projPitch.norm > 0 ∨ projRoll.norm > 0 then
      let azimuthSign : ℝ := if projPitch.dot axes.pitch ≥ 0 then 1 else -1
      azimuthSign * Real.arctan (projPitch.norm / projRoll.norm)
    else 0
  (relPos, range, azimuth, elevation)

/-- `IdealSensor::SenseVelocity`: range rate, azimuth rate and elevation rate
of the target about the sensing agent.  The tangent frame is rebuilt from
cross products when the relative position is colinear with the yaw or pitch
axis. -/
noncomputable def SenseVelocity (agent target : Agent) : ℝ × ℝ × ℝ :=
  let axes := agent.GetNormalizedPrincipalAxes
  let relPos := target.GetPosition.sub agent.GetPosition
  let relVel := target.GetVelocity.sub agent.GetVelocity
  -- Project the relative velocity vector onto the relative position vector.
  let projOnRelPos := Vec3.smul (relVel.dot relPos / relPos.norm ^ 2) relPos
  -- Determine the sign of the range rate.
  let rangeRateSign : ℝ := if projOnRelPos.dot relPos ≥ 0 then 1 else -1
  let rangeRate := rangeRateSign * projOnRelPos.norm
  -- Project the relative velocity vector onto the sphere through the target.
  let projSphere := relVel.sub projOnRelPos
  -- Tangent frame; rebuilt when a cross product degenerates.
  let targetAzimuth0 := relPos.cross axes.yaw
  let targetElevation0 := axes.pitch.cross relPos
  let targetAzimuth :=
    if targetAzimuth0.norm = 0 then relPos.cross targetElevation0 else targetAzimuth0
  let targetElevation :=
    if targetAzimuth0.norm ≠ 0 ∧ targetElevation0.norm = 0 then
      targetAzimuth0.cross relPos
    else targetElevation0
  -- Project the sphere component onto the target azimuth vector.
  let projAzimuth :=
    Vec3.smul (projSphere.dot targetAzimuth / targetAzimuth.norm ^ 2) targetAzimuth
  let azimuthRateSign : ℝ := if projAzimuth.dot targetAzimuth ≥ 0 then 1 else -1
  let azimuthRate := azimuthRateSign * projAzimuth.norm / relPos.norm
  -- The elevation component is the remainder on the sphere.
  let projElevation := projSphere.sub projAzimuth
  let elevationRateSign : ℝ := if projElevation.dot targetElevation ≥ 0 then 1 else -1
  let elevationRate := elevationRateSign * projElevation.norm / relPos.norm
  (rangeRate, azimuthRate, elevationRate)

/-- `IdealSensor::Sense`: merge of `SensePosition` and `SenseVelocity`. -/
noncomputable def Sense (agent target : Agent) : SensorOutput :=
  let (relPos, range, azimuth, elevation) := SensePosition agent target
  let (rangeRate, azimuthRate, elevationRate) := SenseVelocity agent target
  { positionCartesian := relPos
    range := range
    azimuth := azimuth
    elevation := elevation
    rangeRate := rangeRate
    azimuthRate := azimuthRate
    elevationRate := elevationRate }

end IdealSensor

namespace Interceptor

/-- `Interceptor::CalculateMaxAcceleration`:
`(speed/referenceSpeed)^2 * maxReferenceAcceleration * kGravity`. -/
noncomputable def CalculateMaxAcceleration (a : Agent) : ℝ :=
  let maxReferenceAcceleration :=
    a.staticConfig.maxReferenceAcceleration * constants.kGravity
  let referenceSpeed := a.staticConfig.referenceSpeed
  (a.GetSpeed / referenceSpeed) ^ 2 * maxReferenceAcceleration

/-- `Interceptor::CalculateGravityProjectionOnPitchAndYaw`. -/
noncomputable def CalculateGravityProjectionOnPitchAndYaw (a : Agent) : Vec3 :=
  let axes := a.GetNormalizedPrincipalAxes
  let gravity := a.GetGravity
  (Vec3.smul (gravity.dot axes.pitch) axes.pitch).add
    (Vec3.smul (gravity.dot axes.yaw) axes.yaw)

/-- `Interceptor::CalculateDrag`:
`dragCoefficient * dynamicPressure * crossSectionalArea / mass`. -/
noncomputable def CalculateDrag (a : Agent) : ℝ :=
  a.staticConfig.dragCoefficient * a.GetDynamicPressure *
    a.staticConfig.crossSectionalArea / a.staticConfig.mass

/-- `Interceptor::CalculateLiftInducedDrag`: norm of the acceleration input
component orthogonal to roll, divided by the lift-drag ratio. -/
noncomputable def CalculateLiftInducedDrag (a : Agent) (accelerationInput : Vec3) : ℝ :=
  let axes := a.GetNormalizedPrincipalAxes
  let liftAcceleration :=
    (accelerationInput.sub
      (Vec3.smul (accelerationInput.dot axes.roll) axes.roll)).norm
  |liftAcceleration / a.staticConfig.liftDragRatio|

/-- `Interceptor::CalculateAcceleration`: optionally compensate the input for
gravity, then add gravity and the (parasitic plus lift-induced) drag directed
along negative roll. -/
noncomputable def CalculateAcceleration (a : Agent) (accelerationInput : Vec3)
    (compensateForGravity : Bool := false) : Vec3 :=
  let gravity := a.GetGravity
  let compensated :=
    if compensateForGravity then
      accelerationInput.sub (CalculateGravityProjectionOnPitchAndYaw a)
    else accelerationInput
  let airDrag := CalculateDrag a
  let liftInducedDrag := CalculateLiftInducedDrag a compensated
  let axes := a.GetNormalizedPrincipalAxes
  let dragAcceleration := Vec3.smul (-(airDrag + liftInducedDrag)) axes.roll
  (compensated.add gravity).add dragAcceleration

/-- `Interceptor::UpdateReady`: zero acceleration input; gravity and drag
only. -/
noncomputable def UpdateReady (a : Agent) : Agent :=
  let acceleration := CalculateAcceleration a Vec3.zero
  { a with state := { a.state with acceleration := acceleration } }

/-- `Interceptor::UpdateBoost`: accelerate along roll with
`boostAcceleration * kGravity`. -/
noncomputable def UpdateBoost (a : Agent) : Agent :=
  let axes := a.GetNormalizedPrincipalAxes
  let boostAcceleration :=
    a.staticConfig.boostAcceleration * constants.kGravity
  let accelerationInput := Vec3.smul boostAcceleration axes.roll
  let acceleration := CalculateAcceleration a accelerationInput
  { a with state := { a.state with acceleration := acceleration } }

end Interceptor

namespace Micromissile

/-- `Micromissile::kProportionalNavigationGain`. -/
noncomputable def kProportionalNavigationGain : ℝ := 3

/-- The local `acceleration_input` of `Micromissile::CalculateAccelerationInput`
before clamping: the proportional-navigation command
`gain * (azimuthRate * pitch + elevationRate * yaw) * closingRate` with
`closingRate = -rangeRate`. -/
noncomputable def rawAccelerationInput (a : Agent) (so : SensorOutput) : Vec3 :=
  let azimuthVelocity := so.azimuthRate
  let elevationVelocity := so.elevationRate
  let closingVelocity := -so.rangeRate
  let axes := a.GetNormalizedPrincipalAxes
  Vec3.smul (kProportionalNavigationGain * closingVelocity)
    ((Vec3.smul azimuthVelocity axes.pitch).add
      (Vec3.smul elevationVelocity axes.yaw))

/-- `Micromissile::CalculateAccelerationInput`: the proportional-navigation
command, clamped in magnitude to `CalculateMaxAcceleration` with its
direction preserved (via `normalized() * max`). -/
noncomputable def CalculateAccelerationInput (a : Agent) (so : SensorOutput) : Vec3 :=
  let accelerationInput := rawAccelerationInput a so
  let maxAcceleration := Interceptor.CalculateMaxAcceleration a
  if accelerationInput.norm > maxAcceleration then
    Vec3.smul maxAcceleration accelerationInput.normalize
  else accelerationInput

end Micromissile

/-- A fixed-step ODE integrator collaborator (boost::odeint's `integrate` in
`Agent::Step`), abstracted per the design: it receives the state-space
right-hand side, the initial (position, velocity) state, the start and end
times and the initial step size, and returns the final state.  Only the
right-hand side handed to it is part of the core. -/
def Integrator : Type :=
  ((Vec3 × Vec3) → ℝ → (Vec3 × Vec3)) → (Vec3 × Vec3) → ℝ → ℝ → ℝ → (Vec3 × Vec3)

/-- The integrator that returns its input state unchanged; a trivial
instantiation of the integrator collaborator used for closed examples whose
conclusions do not depend on the integration result. -/
def idIntegrator : Integrator := fun _deriv x0 _t0 _t1 _dt => x0

namespace Agent

/-- `Agent::Step`: refresh the most recent history record with `t_start` and
the current state; return if `t_step == 0`; otherwise integrate
`dx/dt = v, dv/dt = a` (zero derivative below ground) from `t_start` to
`t_start + t_step` with initial step `t_step / 10`, store the integrated
position and velocity, append a fresh history record at the end time, and
record the state-update time. -/
noncomputable def Step (a : Agent) (tStart tStep : ℝ) (integ : Integrator) : Agent :=
  let a' := { a with history := match a.history with
      | [] => []
      | r :: rest => { r with t := tStart, state := a.state } :: rest }
  if tStep = 0 then a'
  else
    let x0 := (a.GetPosition, a.GetVelocity)
    -- The state-space equations handed to the integrator (the kinematics
    -- lambda in `Agent::Step`): frozen below ground, otherwise
    -- (velocity, acceleration).
    let kinematics := fun (x : Vec3 × Vec3) (_t : ℝ) =>
      if x.1.z < 0 then (Vec3.zero, Vec3.zero)
      else (x.2, a.state.acceleration)
    let tEnd := tStart + tStep
    let x := integ kinematics x0 tStart tEnd (tStep / 10)
    let newState : State :=
      { position := x.1, velocity := x.2, acceleration := a.state.acceleration }
    { a' with
      state := newState
      history := HistoryRecord.mk tEnd a.hit newState :: a'.history
      stateUpdateTime := tEnd }

/-- `Agent::Update` with the base-class virtual phase handlers, which are
no-ops (`agent.h`); this is the dispatch used by `ModelAgent`.  The flight
phase member is recomputed (mutated) before the switch; the `default` branch
of the switch throws `Invalid flight phase`, modelled by the `Option String`
component.  Mutations made before the throw persist. -/
noncomputable def Update (a : Agent) (t : ℝ) : Agent × Option String :=
  let a' := { a with flightPhase := a.updateFlightPhase t }
  match a'.flightPhase with
  | FlightPhase.INITIALIZED => (a', none)
  | FlightPhase.READY => (a', none)
  | FlightPhase.BOOST => (a', none)
  | FlightPhase.MIDCOURSE => (a', none)
  | FlightPhase.TERMINAL => (a', none)
  | FlightPhase.TERMINATED => (a', some "Invalid flight phase")

end Agent

/-- A micromissile together with its target bookkeeping: `target_model_` is
the owned state-only proxy (`ModelAgent`), and `target` models the `target_`
raw pointer to the live assigned target (`none` = null). -/
structure MState where
  self : Agent
  targetModel : Option Agent
  target : Option Agent

namespace MState

/-- `Agent::has_assigned_target`: the `target_` pointer is non-null. -/
def has_assigned_target (m : MState) : Prop := m.target ≠ none

end MState

/-- `ModelAgent(state)`: a base agent built from a state snapshot with
`t_creation = 0`, `ready = true` (hence READY) and default-constructed
configurations (all proto fields zero); the constructor seeds the history
with the initial record. -/
def mkModelAgent (s : State) : Agent :=
  { tCreation := 0
    state := s
    stateUpdateTime := 0
    flightPhase := FlightPhase.READY
    staticConfig := ⟨0, 0, 0, 0, 0, 0, 0, 0, 0, 0⟩
    dynamicConfig := ⟨0, 0⟩
    hit := false
    history := [⟨0, false, s⟩]
    sensorUpdateTime := 0 }

namespace MState

/-- `Interceptor::AssignTarget`: store the target pointer and build a fresh
owned model agent from the target's current state (never a live alias). -/
def AssignTarget (m : MState) (tgt : Agent) : MState :=
  { m with target := some tgt, targetModel := some (mkModelAgent tgt.state) }

/-- `Interceptor::UnassignTarget`: clear the pointer and release the model. -/
def UnassignTarget (m : MState) : MState :=
  { m with target := none, targetModel := none }

/-- `Agent::CheckTarget`: auto-unassign when the assigned target is hit. -/
def CheckTarget (m : MState) : MState :=
  match m.target with
  | some tgt => if tgt.hit then m.UnassignTarget else m
  | none => m

end MState

namespace Micromissile

open Classical in
/-- `Micromissile::UpdateMidCourse`: with an assigned target, update and step
the owned target model, refresh it from the live target at the sensor
frequency, sense it, and on a hit roll the kill probability against a fresh
uniform draw (`GenerateRandomUniform(0, 1)`, modelled by the explicit `draw`
argument) — a success marks both the missile and the live target as hit and
returns; otherwise (or with no target) compute the gravity-compensated
proportional-navigation acceleration and store it. -/
noncomputable def UpdateMidCourse (m : MState) (t draw : ℝ) (integ : Integrator) :
    MState × Option String :=
  match m.target, m.targetModel with
  | some tgt, some tm0 =>
      -- Update the target model.
      let modelStepTime := t - tm0.stateUpdateTime
      let tm1 := (tm0.Update t).1
      match (tm0.Update t).2 with
      | some e => ({ m with targetModel := some tm1 }, some e)
      | none =>
        let tm2 := tm1.Step tm1.stateUpdateTime modelStepTime integ
        -- Correct the state of the target model at the sensor frequency.
        let sensorUpdatePeriod := 1 / m.self.dynamicConfig.sensorFrequency
        let refresh : Prop := t - m.self.sensorUpdateTime ≥ sensorUpdatePeriod
        let self1 := if refresh then { m.self with sensorUpdateTime := t } else m.self
        let tm3 := if refresh then tm2.SetState tgt.state else tm2
        -- Sense the target.
        let sensorOutput := IdealSensor.Sense self1 tm3
        -- Check whether the target has been hit.
        if self1.HasHitTarget (some tgt) ∧
            draw < tgt.staticConfig.killProbability then
          ({ self := self1.MarkAsHit, targetModel := some tm3,
             target := some tgt.MarkAsHit }, none)
        else
          let accelerationInput := CalculateAccelerationInput self1 sensorOutput
          let acceleration :=
            Interceptor.CalculateAcceleration self1 accelerationInput true
          ({ self := { self1 with
                state := { self1.state with acceleration := acceleration } }
             targetModel := some tm3
             target := some tgt }, none)
  | _, _ =>
      let acceleration := Interceptor.CalculateAcceleration m.self Vec3.zero true
      ({ m with self := { m.self with
          state := { m.self.state with acceleration := acceleration } } }, none)

/-- `Agent::Update` with the `Micromissile` virtual handlers
(`Interceptor::UpdateReady`, `Interceptor::UpdateBoost`,
`Micromissile::UpdateMidCourse`): recompute the flight phase, then dispatch;
the switch `default` throws, with the phase mutation persisting. -/
noncomputable def Update (m : MState) (t draw : ℝ) (integ : Integrator) :
    MState × Option String :=
  let self1 := { m.self with flightPhase := m.self.updateFlightPhase t }
  let m1 := { m with self := self1 }
  match self1.flightPhase with
  | FlightPhase.INITIALIZED => (m1, none)
  | FlightPhase.READY => ({ m1 with self := Interceptor.UpdateReady self1 }, none)
  | FlightPhase.BOOST => ({ m1 with self := Interceptor.UpdateBoost self1 }, none)
  | FlightPhase.MIDCOURSE => UpdateMidCourse m1 t draw integ
  | FlightPhase.TERMINAL => UpdateMidCourse m1 t draw integ
  | FlightPhase.TERMINATED => (m1, some "Invalid flight phase")

end Micromissile

/-- The operations a client may invoke on a micromissile between ticks, per
the agent lifecycle: `Update(t)` (with the fresh uniform draw made explicit),
`Step(t_start, t_step)`, `AssignTarget(target)` and `CheckTarget()`. -/
inductive Op where
  | update (t draw : ℝ)
  | step (tStart tStep : ℝ)
  | assignTarget (tgt : Agent)
  | checkTarget

/-- Apply one operation to a micromissile (the `Update` result keeps the
mutations made before a potential throw). -/
noncomputable def applyOp (integ : Integrator) (m : MState) : Op → MState
  | Op.update t draw => (Micromissile.Update m t draw integ).1
  | Op.step tStart tStep => { m with self := m.self.Step tStart tStep integ }
  | Op.assignTarget tgt => m.AssignTarget tgt
  | Op.checkTarget => m.CheckTarget

/-- Run a sequence of operations left to right. -/
noncomputable def execOps (integ : Integrator) : MState → List Op → MState
  | m, [] => m
  | m, op :: ops => execOps integ (applyOp integ m op) ops

/-- Chronological validity of an operation sequence: the `Update` times are
non-decreasing (each at least the given lower bound, which the simulator's
monotonically increasing tick time guarantees), and `Update` is never invoked
on a TERMINATED agent (the simulator skips terminated agents in its update
phase). -/
def ValidFrom (integ : Integrator) : ℝ → MState → List Op → Prop
  | _, _, [] => True
  | tLow, m, Op.update t draw :: ops =>
      tLow ≤ t ∧ m.self.flightPhase ≠ FlightPhase.TERMINATED ∧
      ValidFrom integ t (applyOp integ m (Op.update t draw)) ops
  | tLow, m, op :: ops => ValidFrom integ tLow (applyOp integ m op) ops

/-- The reachability invariant tying the flight phase to the time lower
bound: BOOST is only held once past launch time, MIDCOURSE only once past
launch plus boost time, and TERMINAL is never held (no code path enters it;
its entry condition is an open design question). -/
def PhaseInv (m : MState) (tLow : ℝ) : Prop :=
  (m.self.flightPhase = FlightPhase.BOOST →
    m.self.tCreation + m.self.dynamicConfig.launchTime ≤ tLow) ∧
  (m.self.flightPhase = FlightPhase.MIDCOURSE →
    m.self.tCreation + m.self.dynamicConfig.launchTime
      + m.self.staticConfig.boostTime ≤ tLow) ∧
  m.self.flightPhase ≠ FlightPhase.TERMINAL

/-- The all-zero kinematic state. -/
def stateZero : State := ⟨Vec3.zero, Vec3.zero, Vec3.zero⟩

/-- A concrete agent for the closed examples: created ready at time 0 with
launch time 0 and boost time 1 (so any update in (0, 1) puts it in BOOST). -/
noncomputable def sampleAgent : Agent :=
  { tCreation := 0
    state := stateZero
    stateUpdateTime := 0
    flightPhase := FlightPhase.READY
    staticConfig :=
      { mass := 1, crossSectionalArea := 1, dragCoefficient := 0,
        liftDragRatio := 1, boostTime := 1, boostAcceleration := 0,
        maxReferenceAcceleration := 1, referenceSpeed := 1, hitRadius := 1,
        killProbability := 1/2 }
    dynamicConfig := { launchTime := 0, sensorFrequency := 1 }
    hit := false
    history := [⟨0, false, stateZero⟩]
    sensorUpdateTime := 0 }

/-- A concrete agent whose launch lies far in the future (launch time 10), so
an update at time 0 leaves the phase recomputation inert. -/
noncomputable def lateAgent : Agent :=
  { sampleAgent with dynamicConfig := { launchTime := 10, sensorFrequency := 1 } }

/-- A concrete agent at the origin with hit radius 5. -/
noncomputable def radiusAgent : Agent :=
  { sampleAgent with
    staticConfig := { sampleAgent.staticConfig with hitRadius := 5 } }

/-- A concrete agent positioned at (3, 4, 0) — at distance exactly 5 from the
origin. -/
noncomputable def offsetAgent : Agent :=
  { sampleAgent with state := { stateZero with position := ⟨3, 4, 0⟩ } }

/-- The sensing agent of the boresight example: at the origin, moving with
velocity (0, 4, 0). -/
noncomputable def senseSelf : Agent :=
  { sampleAgent with
    state := { position := ⟨0, 0, 0⟩, velocity := ⟨0, 4, 0⟩,
               acceleration := Vec3.zero } }

/-- The sensed target of the boresight example: at (0, 4, 0), moving with
velocity (2, 2, -1). -/
noncomputable def senseTarget : Agent :=
  { sampleAgent with
    state := { position := ⟨0, 4, 0⟩, velocity := ⟨2, 2, -1⟩,
               acceleration := Vec3.zero } }

/-- A concrete sensor output (the boresight example's values). -/
noncomputable def sampleSensorOutput : SensorOutput :=
  { positionCartesian := ⟨0, 4, 0⟩
    range := 4
    azimuth := 0
    elevation := 0
    rangeRate := -2
    azimuthRate := 1/2
    elevationRate := -1/4 }

namespace assignment

/-- The slice of an agent read by the assignment algorithms
(`Assignment::GetAssignableInterceptorIndices` / `GetActiveThreatIndices` and
the distance computation): flight phase and target-assignment flag (for
`Interceptor::assignable()`), hit flag, and position. -/
structure AssignAgent where
  flightPhase : FlightPhase
  hasAssignedTarget : Bool
  hit : Bool
  position : Vec3

/-- `Interceptor::assignable()`: `has_launched() && !has_assigned_target()`. -/
def AssignAgent.assignable (a : AssignAgent) : Bool :=
  decide (a.flightPhase ≠ FlightPhase.INITIALIZED) && !a.hasAssignedTarget

/-- `Assignment::GetAssignableInterceptorIndices`: the indices of the
assignable interceptors, in increasing index order. -/
def GetAssignableInterceptorIndices (interceptors : List AssignAgent) : List ℕ :=
  (interceptors.enum.filter (fun p => p.2.assignable)).map Prod.fst

/-- `Assignment::GetActiveThreatIndices`: the indices of the non-hit threats,
in increasing index order. -/
def GetActiveThreatIndices (threats : List AssignAgent) : List ℕ :=
  (threats.enum.filter (fun p => !p.2.hit)).map Prod.fst

/-- The interceptor-threat distance tuple (`InterceptorThreatDistance`),
parameterized by the type carrying the distance (`double` in the source;
instantiated at ℝ, and at ℚ with squared distances for exact evaluation via
the strict monotonicity of the square root). -/
structure ITD (K : Type) where
  interceptorIndex : ℕ
  threatIndex : ℕ
  distance : K

/-- The strict-weak-order comparator handed to `std::sort`: ascending by
distance, ties broken by interceptor index, then threat index. -/
def itdLt {K : Type} [LinearOrder K] (a b : ITD K) : Prop :=
  if a.distance ≠ b.distance then a.distance < b.distance
  else if a.interceptorIndex ≠ b.interceptorIndex then
    a.interceptorIndex < b.interceptorIndex
  else a.threatIndex < b.threatIndex

instance {K : Type} [LinearOrder K] : DecidableRel (@itdLt K _) := fun a b => by
  unfold itdLt; infer_instance

/-- The non-strict companion of the sort comparator.  On the candidate tuples
(whose (interceptor, threat) pairs are pairwise distinct) `itdLt` is a strict
total order, so the sorted arrangement `std::sort` produces is unique;
`sortITD` below realizes it by insertion sort with this relation. -/
def itdLe {K : Type} [LinearOrder K] (a b : ITD K) : Prop := ¬ itdLt b a

instance {K : Type} [LinearOrder K] : DecidableRel (@itdLe K _) := fun a b => by
  unfold itdLe; infer_instance

/-- The `std::sort` call of `DistanceAssignment::AssignImpl`. -/
def sortITD {K : Type} [LinearOrder K] (l : List (ITD K)) : List (ITD K) :=
  List.insertionSort itdLe l

/-- One greedy sweep over the sorted tuples (the range-for of
`DistanceAssignment::AssignImpl`): accept a tuple whenever neither its
interceptor nor its threat has been consumed in this sweep, pushing the pair
onto the front of the assignment list (`emplace_front`) and recording both
indices in the per-sweep consumed sets (modelled as lists).  Returns the
extended assignment list and the consumed interceptor set. -/
def sweep {K : Type} : List (ITD K) → List ℕ → List ℕ → List (ℕ × ℕ) →
    List (ℕ × ℕ) × List ℕ
  | [], assignedI, _, acc => (acc, assignedI)
  | x :: rest, assignedI, assignedT, acc =>
      if x.interceptorIndex ∉ assignedI ∧ x.threatIndex ∉ assignedT then
        sweep rest (x.interceptorIndex :: assignedI)
          (x.threatIndex :: assignedT)
          ((x.interceptorIndex, x.threatIndex) :: acc)
      else sweep rest assignedI assignedT acc

/-- The outer while-loop of `DistanceAssignment::AssignImpl`: sweep, then
erase every remaining tuple whose interceptor was consumed in this sweep,
and repeat until no tuples remain.  Each round consumes at least the first
tuple of the (nonempty) list, so the loop terminates; the recursion is
bounded by an explicit fuel, and `rounds_fuel_irrelevant` below shows any
fuel of at least the list length computes the loop's fixed point. -/
def rounds {K : Type} : ℕ → List (ITD K) → List (ℕ × ℕ) → List (ℕ × ℕ)
  | 0, _, acc => acc
  | _ + 1, [], acc => acc
  | fuel + 1, x :: rest, acc =>
      let swept := sweep (x :: rest) [] [] acc
      rounds fuel
        ((x :: rest).filter (fun y => y.interceptorIndex ∉ swept.2)) swept.1

instance : Inhabited AssignAgent :=
  ⟨⟨FlightPhase.INITIALIZED, false, false, Vec3.zero⟩⟩

/-- The candidate tuple list of `DistanceAssignment::AssignImpl`
(interceptor-major, threat-minor, exactly the double loop of the source),
with the Euclidean interceptor-threat distance. -/
noncomputable def interceptorThreatDistances
    (interceptors threats : List AssignAgent) : List (ITD ℝ) :=
  (GetAssignableInterceptorIndices interceptors).flatMap (fun i =>
    (GetActiveThreatIndices threats).map (fun t =>
      ⟨i, t, (((threats.getD t default).position).sub
        ((interceptors.getD i default).position)).norm⟩))

/-- `DistanceAssignment::AssignImpl`: return immediately when either
eligibility list is empty; otherwise sort the candidate tuples and run the
multi-round greedy sweep.  (`Assignment::Assign` clears the result list
before calling the implementation, so the accumulator starts empty.) -/
noncomputable def DistanceAssignment.AssignImpl
    (interceptors threats : List AssignAgent) : List (ℕ × ℕ) :=
  if GetAssignableInterceptorIndices interceptors = [] then []
  else if GetActiveThreatIndices threats = [] then []
  else
    let cands := interceptorThreatDistances interceptors threats
    rounds (cands.length + 1) (sortITD cands) []

/-- The `std::upper_bound` selection of `RoundRobinAssignment::AssignImpl`:
the first active threat index strictly greater than the cursor, wrapping to
the first active threat index when none is greater (the caller guarantees the
active list is nonempty). -/
def upperBoundNext (active : List ℕ) (cursor : ℤ) : ℕ :=
  match active.find? (fun j : ℕ => decide (cursor < (j : ℤ))) with
  | some j => j
  | none => active.headD 0

/-- The per-interceptor loop of `RoundRobinAssignment::AssignImpl`: pair each
assignable interceptor, in order, with the selected threat, push the pair to
the front of the assignment list, and move the cursor
(`prev_threat_index_`) to the selected index. -/
def RoundRobinAssignment.go : List ℕ → List ℕ → ℤ → List (ℕ × ℕ) →
    List (ℕ × ℕ) × ℤ
  | [], _, cursor, acc => (acc, cursor)
  | i :: is, active, cursor, acc =>
      let j := upperBoundNext active cursor
      RoundRobinAssignment.go is active (j : ℤ) ((i, j) :: acc)

/-- `RoundRobinAssignment::AssignImpl`: return immediately when either
eligibility list is empty; otherwise run the per-interceptor loop.  The
cursor member is threaded explicitly (it is initialized to the out-of-range
sentinel `-1` at construction). -/
def RoundRobinAssignment.AssignImpl (interceptors threats : List AssignAgent)
    (cursor : ℤ) : List (ℕ × ℕ) × ℤ :=
  if GetAssignableInterceptorIndices interceptors = [] then ([], cursor)
  else if GetActiveThreatIndices threats = [] then ([], cursor)
  else RoundRobinAssignment.go (GetAssignableInterceptorIndices interceptors)
    (GetActiveThreatIndices threats) cursor []

/-- An eligible (launched, unassigned, unhit) assignment agent at the given
position. -/
def eligibleAt (p : Vec3) : AssignAgent :=
  ⟨FlightPhase.READY, false, false, p⟩

/-- The interceptors of the distance-assignment example, at
(1,2,1), (10,12,1), (10,12,1), (10,10,1), all eligible. -/
noncomputable def distExIps : List AssignAgent :=
  [eligibleAt ⟨1, 2, 1⟩, eligibleAt ⟨10, 12, 1⟩, eligibleAt ⟨10, 12, 1⟩,
    eligibleAt ⟨10, 10, 1⟩]

/-- The threats of the distance-assignment example, at (10,15,2) and
(1,2,2), none hit. -/
noncomputable def distExTts : List AssignAgent :=
  [eligibleAt ⟨10, 15, 2⟩, eligibleAt ⟨1, 2, 2⟩]

/-- Four eligible interceptors for the round-robin example (positions are
irrelevant to the round-robin strategy). -/
def rrExIps : List AssignAgent :=
  List.replicate 4 ⟨FlightPhase.READY, false, false, ⟨0, 0, 0⟩⟩

/-- Two eligible threats for the round-robin example. -/
def rrExTts : List AssignAgent :=
  List.replicate 2 ⟨FlightPhase.READY, false, false, ⟨0, 0, 0⟩⟩

/-- The index-preserving distance-carrier map between tuple lists. -/
def ITD.mapD {K K2 : Type} (f : K → K2) (x : ITD K) : ITD K2 :=
  ⟨x.interceptorIndex, x.threatIndex, f x.distance⟩

/-- The square root, as the bridge from exact squared distances in ℚ to the
real distances of the source. -/
noncomputable def sqrtQ (q : ℚ) : ℝ := Real.sqrt (q : ℝ)

/-- The candidate tuples of the distance-assignment example with exact
squared distances. -/
def distExCandsQ : List (ITD ℚ) :=
  [⟨0, 0, 251⟩, ⟨0, 1, 1⟩, ⟨1, 0, 10⟩, ⟨1, 1, 182⟩,
    ⟨2, 0, 10⟩, ⟨2, 1, 182⟩, ⟨3, 0, 26⟩, ⟨3, 1, 146⟩]

end assignment

namespace ThreadPool

/-- The control location of one worker thread inside `ThreadPool::Loop`
(`thread_pool.cc`).  The mutex-protected sections are modelled as atomic
steps, so a worker is observed at one of three locations:

* `atTop` — about to re-acquire the queue lock at the top of the loop (this
  is also the state of a thread between `Start()` and its first iteration,
  and right after finishing a job);
* `waiting` — inside the waiting region: it has incremented
  `num_waiting_threads_` (and signalled the done condition when the pool was
  idle) and blocks on "queue non-empty or terminate";
* `running` — it has been woken with a non-empty queue, decremented
  `num_waiting_threads_`, popped a job, released the lock, and is executing
  the job.

Workers are interchangeable, so the global state tracks the multiset of
their control locations. -/
inductive WorkerState where
  | atTop
  | waiting
  | running
deriving DecidableEq

/-- Global state of a pool to which K independent increment jobs have been
queued: the number of jobs still in `job_queue_`, the shared counter `done`
(the number of completed increments), and the workers' control locations. -/
structure PoolState where
  queue : ℕ
  done : ℕ
  workers : Multiset WorkerState

/-- `ThreadPool::busy()`:
`num_threads_ != num_waiting_threads_ || !job_queue_.empty()`.  `Wait()`
blocks the caller on the done condition until this is false. -/
def busy (N : ℕ) (s : PoolState) : Prop :=
  s.workers.count WorkerState.waiting ≠ N ∨ s.queue ≠ 0

/-- One interleaving step of the pool (no termination is signalled while
jobs are being awaited).  Each constructor is one mutex-protected section of
`ThreadPool::Loop`, or a job execution:

* `enterWait`: lock; `++num_waiting_threads_`; signal the done condition if
  idle; begin the condition-variable wait (releasing the lock);
* `dequeue`: wake with a non-empty queue; `--num_waiting_threads_`; pop the
  front job; unlock;
* `finish`: run the popped increment job to completion outside the lock and
  return to the top of the loop. -/
inductive Step : PoolState → PoolState → Prop
  | enterWait (q d : ℕ) (rest : Multiset WorkerState) :
      Step ⟨q, d, WorkerState.atTop ::ₘ rest⟩ ⟨q, d, WorkerState.waiting ::ₘ rest⟩
  | dequeue (q d : ℕ) (rest : Multiset WorkerState) :
      Step ⟨q + 1, d, WorkerState.waiting ::ₘ rest⟩ ⟨q, d, WorkerState.running ::ₘ rest⟩
  | finish (q d : ℕ) (rest : Multiset WorkerState) :
      Step ⟨q, d, WorkerState.running ::ₘ rest⟩ ⟨q, d + 1, WorkerState.atTop ::ₘ rest⟩

/-- Reflexive-transitive closure of the interleaving steps. -/
inductive Reachable : PoolState → PoolState → Prop
  | refl (s : PoolState) : Reachable s s
  | tail {s t u : PoolState} : Reachable s t → Step t u → Reachable s u

/-- The state right after `Start()` has spawned N workers and the caller has
queued K jobs: the queue holds K jobs, the counter is 0, and every worker is
at the top of its loop or already waiting (none is running a job). -/
def initial (N K : ℕ) (s : PoolState) : Prop :=
  s.queue = K ∧ s.done = 0 ∧ Multiset.card s.workers = N ∧
    WorkerState.running ∉ s.workers

/-- The conservation invariant: completed increments plus queued jobs plus
in-flight jobs account for all K jobs, and the worker count is fixed. -/
def Inv (N K : ℕ) (s : PoolState) : Prop :=
  s.done + s.queue + s.workers.count WorkerState.running = K ∧
    Multiset.card s.workers = N

end ThreadPool

namespace Vec3

theorem normSq_nonneg (a : Vec3) : 0 ≤ a.normSq := by
  have hx := mul_self_nonneg a.x
  have hy := mul_self_nonneg a.y
  have hz := mul_self_nonneg a.z
  unfold normSq; linarith

theorem norm_nonneg (a : Vec3) : 0 ≤ a.norm := Real.sqrt_nonneg _

theorem norm_zero_iff (a : Vec3) : a.norm = 0 ↔ a.normSq = 0 := by
  unfold norm
  constructor
  · intro h
    have := Real.sqrt_eq_zero (normSq_nonneg a) |>.mp h
    exact this
  · intro h; rw [h, Real.sqrt_zero]

theorem normSq_smul (c : ℝ) (a : Vec3) : (smul c a).normSq = c ^ 2 * a.normSq := by
  unfold smul normSq; ring

theorem norm_smul (c : ℝ) (a : Vec3) : (smul c a).norm = |c| * a.norm := by
  unfold norm
  rw [normSq_smul, Real.sqrt_mul (sq_nonneg c), Real.sqrt_sq_eq_abs]

end Vec3

section PhaseLemmas

open FlightPhase

@[simp] theorem Interceptor.updateReady_flightPhase (a : Agent) :
    (Interceptor.UpdateReady a).flightPhase = a.flightPhase := rfl

@[simp] theorem Interceptor.updateBoost_flightPhase (a : Agent) :
    (Interceptor.UpdateBoost a).flightPhase = a.flightPhase := rfl

@[simp] theorem Interceptor.updateReady_sched (a : Agent) :
    (Interceptor.UpdateReady a).tCreation = a.tCreation ∧
    (Interceptor.UpdateReady a).dynamicConfig = a.dynamicConfig ∧
    (Interceptor.UpdateReady a).staticConfig = a.staticConfig :=
  ⟨rfl, rfl, rfl⟩

@[simp] theorem Interceptor.updateBoost_sched (a : Agent) :
    (Interceptor.UpdateBoost a).tCreation = a.tCreation ∧
    (Interceptor.UpdateBoost a).dynamicConfig = a.dynamicConfig ∧
    (Interceptor.UpdateBoost a).staticConfig = a.staticConfig :=
  ⟨rfl, rfl, rfl⟩

@[simp] theorem Agent.markAsHit_flightPhase (a : Agent) :
    (Agent.MarkAsHit a).flightPhase = TERMINATED := rfl

@[simp] theorem Agent.step_flightPhase (a : Agent) (tStart tStep : ℝ) (integ : Integrator) :
    (a.Step tStart tStep integ).flightPhase = a.flightPhase := by
  unfold Agent.Step
  split <;> split <;> rfl

@[simp] theorem Agent.step_sched (a : Agent) (tStart tStep : ℝ) (integ : Integrator) :
    (a.Step tStart tStep integ).tCreation = a.tCreation ∧
    (a.Step tStart tStep integ).dynamicConfig = a.dynamicConfig ∧
    (a.Step tStart tStep integ).staticConfig = a.staticConfig := by
  unfold Agent.Step
  split <;> split <;> exact ⟨rfl, rfl, rfl⟩

/-- The phase written by the recomputation at the top of `Agent::Update` is
either MIDCOURSE (once past launch plus boost), BOOST (once past launch), or
the incoming phase. -/
theorem Agent.updateFlightPhase_cases (a : Agent) (t : ℝ) :
    (a.updateFlightPhase t = MIDCOURSE ∧
      a.tCreation + a.dynamicConfig.launchTime + a.staticConfig.boostTime ≤ t)
    ∨ (a.updateFlightPhase t = BOOST ∧
      a.tCreation + a.dynamicConfig.launchTime ≤ t ∧
      ¬ a.tCreation + a.dynamicConfig.launchTime + a.staticConfig.boostTime ≤ t)
    ∨ (a.updateFlightPhase t = a.flightPhase ∧
      ¬ a.tCreation + a.dynamicConfig.launchTime ≤ t ∧
      ¬ a.tCreation + a.dynamicConfig.launchTime + a.staticConfig.boostTime ≤ t) := by
  unfold Agent.updateFlightPhase
  dsimp only
  split_ifs with h1 h2 <;> simp_all [ge_iff_le]

/-- `Micromissile::UpdateMidCourse` leaves the flight phase unchanged except
for the kill branch, which marks the missile as hit (TERMINATED); and it
never changes the scheduling parameters. -/
theorem Micromissile.updateMidCourse_phase (m : MState) (t draw : ℝ)
    (integ : Integrator) :
    ((Micromissile.UpdateMidCourse m t draw integ).1.self.flightPhase
        = m.self.flightPhase ∨
      (Micromissile.UpdateMidCourse m t draw integ).1.self.flightPhase
        = TERMINATED)
    ∧ (Micromissile.UpdateMidCourse m t draw integ).1.self.tCreation
        = m.self.tCreation
    ∧ (Micromissile.UpdateMidCourse m t draw integ).1.self.dynamicConfig
        = m.self.dynamicConfig
    ∧ (Micromissile.UpdateMidCourse m t draw integ).1.self.staticConfig
        = m.self.staticConfig := by
  rcases m with ⟨self, tmodel, tgt⟩
  rcases tgt with _ | tgt <;> rcases tmodel with _ | tm0 <;>
    simp only [Micromissile.UpdateMidCourse]
  · simp
  · simp
  · simp
  · rcases h : (tm0.Update t).2 with _ | e
    · by_cases hrefresh : t - self.sensorUpdateTime ≥ 1 / self.dynamicConfig.sensorFrequency
      · rw [if_pos hrefresh, if_pos hrefresh]
        split_ifs with hkill <;> simp [Agent.MarkAsHit]
      · rw [if_neg hrefresh, if_neg hrefresh]
        split_ifs with hkill <;> simp [Agent.MarkAsHit]
    · simp

@[simp] theorem MState.assignTarget_self (m : MState) (tgt : Agent) :
    (m.AssignTarget tgt).self = m.self := rfl

@[simp] theorem MState.checkTarget_self (m : MState) :
    m.CheckTarget.self = m.self := by
  unfold MState.CheckTarget MState.UnassignTarget
  rcases m.target with _ | tgt
  · rfl
  · dsimp only
    split <;> rfl

/-- `Micromissile`'s `Agent::Update`: the resulting phase is the recomputed
phase, except that the mid-course/terminal handler may mark the missile as
hit (TERMINATED); the scheduling parameters are unchanged. -/
theorem Micromissile.update_phase (m : MState) (t draw : ℝ) (integ : Integrator) :
    ((Micromissile.Update m t draw integ).1.self.flightPhase
        = m.self.updateFlightPhase t
      ∨ ((Micromissile.Update m t draw integ).1.self.flightPhase
          = FlightPhase.TERMINATED
        ∧ (m.self.updateFlightPhase t = FlightPhase.MIDCOURSE
          ∨ m.self.updateFlightPhase t = FlightPhase.TERMINAL)))
    ∧ (Micromissile.Update m t draw integ).1.self.tCreation = m.self.tCreation
    ∧ (Micromissile.Update m t draw integ).1.self.dynamicConfig
        = m.self.dynamicConfig
    ∧ (Micromissile.Update m t draw integ).1.self.staticConfig
        = m.self.staticConfig := by
  unfold Micromissile.Update
  rcases hp : m.self.updateFlightPhase t <;> simp only [hp]
  · simp
  · simp
  · simp
  · have h := Micromissile.updateMidCourse_phase
      { m with self := { m.self with flightPhase := FlightPhase.MIDCOURSE } } t draw integ
    refine ⟨?_, h.2.1, h.2.2.1, h.2.2.2⟩
    rcases h.1 with h1 | h1
    · exact Or.inl h1
    · exact Or.inr ⟨h1, Or.inl trivial⟩
  · have h := Micromissile.updateMidCourse_phase
      { m with self := { m.self with flightPhase := FlightPhase.TERMINAL } } t draw integ
    refine ⟨?_, h.2.1, h.2.2.1, h.2.2.2⟩
    rcases h.1 with h1 | h1
    · exact Or.inl h1
    · exact Or.inr ⟨h1, Or.inr trivial⟩
  · simp

/-- One `Update` step preserves the reachability invariant and never moves
the phase backward, provided the agent is not already TERMINATED and time has
not gone backward. -/
theorem Micromissile.update_mono (integ : Integrator) (m : MState)
    (tLow t draw : ℝ) (hInv : PhaseInv m tLow) (ht : tLow ≤ t)
    (hnt : m.self.flightPhase ≠ FlightPhase.TERMINATED) :
    FlightPhase.idx m.self.flightPhase ≤
      FlightPhase.idx (Micromissile.Update m t draw integ).1.self.flightPhase
    ∧ PhaseInv (Micromissile.Update m t draw integ).1 t := by
  obtain ⟨hBoost, hMid, hTerminal⟩ := hInv
  obtain ⟨hph, hsc1, hsc2, hsc3⟩ := Micromissile.update_phase m t draw integ
  have hcases := Agent.updateFlightPhase_cases m.self t
  -- The recomputed phase never has a smaller index than the incoming phase.
  have hmono : FlightPhase.idx m.self.flightPhase ≤
      FlightPhase.idx (m.self.updateFlightPhase t) := by
    rcases hcases with ⟨heq, hle⟩ | ⟨heq, hle, hnle⟩ | ⟨heq, _, _⟩
    · rw [heq]
      rcases hq : m.self.flightPhase <;> simp [FlightPhase.idx]
      · exact absurd hq hTerminal
      · exact absurd hq hnt
    · rw [heq]
      rcases hq : m.self.flightPhase <;> simp [FlightPhase.idx] <;>
        first
        | exact absurd hq hTerminal
        | exact absurd hq hnt
        | exact absurd hle (by rw [hq] at hMid; intro hle; exact hnle (le_trans (hMid rfl) ht) )
    · rw [heq]
  -- The invariant transported to the new time bound.
  have hInv' : PhaseInv (Micromissile.Update m t draw integ).1 t := by
    refine ⟨?_, ?_, ?_⟩
    · intro hb
      rw [hsc1, hsc2]
      rcases hph with hph | ⟨hph, _⟩
      · rw [hb] at hph
        rcases hcases with ⟨heq, _⟩ | ⟨heq, hle, _⟩ | ⟨heq, hnle, _⟩
        · rw [heq] at hph; exact absurd hph.symm (by decide)
        · exact hle
        · rw [heq] at hph
          have := hBoost hph.symm
          linarith
      · rw [hb] at hph; exact absurd hph.symm (by decide)
    · intro hb
      rw [hsc1, hsc2, hsc3]
      rcases hph with hph | ⟨hph, _⟩
      · rw [hb] at hph
        rcases hcases with ⟨heq, hle⟩ | ⟨heq, _, _⟩ | ⟨heq, _, hnle⟩
        · exact hle
        · rw [heq] at hph; exact absurd hph.symm (by decide)
        · rw [heq] at hph
          have := hMid hph.symm
          linarith
      · rw [hb] at hph; exact absurd hph.symm (by decide)
    · rcases hph with hph | ⟨hph, _⟩
      · rw [hph]
        rcases hcases with ⟨heq, _⟩ | ⟨heq, _, _⟩ | ⟨heq, _, _⟩ <;> rw [heq]
        · exact (by decide)
        · exact (by decide)
        · exact hTerminal
      · rw [hph]; exact (by decide)
  refine ⟨?_, hInv'⟩
  rcases hph with hph | ⟨hph, _⟩
  · rw [hph]; exact hmono
  · rw [hph]
    rcases m.self.flightPhase <;> simp [FlightPhase.idx]

/-- Along any chronologically valid operation sequence in which `Update` is
never invoked on a TERMINATED agent, the flight-phase index never
decreases. -/
theorem execOps_mono (integ : Integrator) :
    ∀ (ops : List Op) (m : MState) (tLow : ℝ),
      PhaseInv m tLow → ValidFrom integ tLow m ops →
      FlightPhase.idx m.self.flightPhase ≤
        FlightPhase.idx (execOps integ m ops).self.flightPhase := by
  intro ops
  induction ops with
  | nil => intro m tLow _ _; exact le_refl _
  | cons op ops ih =>
    intro m tLow hInv hValid
    rcases op with ⟨t, draw⟩ | ⟨tStart, tStep⟩ | tgt | _
    · obtain ⟨ht, hnt, hValid'⟩ := hValid
      obtain ⟨hle, hInv'⟩ :=
        Micromissile.update_mono integ m tLow t draw hInv ht hnt
      exact le_trans hle (ih _ t hInv' hValid')
    · refine le_trans ?_ (ih _ tLow ?_ hValid)
      · simp [execOps, applyOp]
      · obtain ⟨h1, h2, h3⟩ := hInv
        refine ⟨?_, ?_, ?_⟩ <;>
          simp_all [applyOp, (Agent.step_sched m.self tStart tStep integ).1,
            (Agent.step_sched m.self tStart tStep integ).2.1,
            (Agent.step_sched m.self tStart tStep integ).2.2]
    · refine le_trans ?_ (ih _ tLow ?_ hValid)
      · simp [execOps, applyOp]
      · obtain ⟨h1, h2, h3⟩ := hInv
        exact ⟨h1, h2, h3⟩
    · refine le_trans ?_ (ih _ tLow ?_ hValid)
      · simp [execOps, applyOp]
      · obtain ⟨h1, h2, h3⟩ := hInv
        refine ⟨?_, ?_, ?_⟩ <;> simp_all [applyOp]

end PhaseLemmas

theorem Vec3.norm_normalize (a : Vec3) (h : a.norm ≠ 0) :
    a.normalize.norm = 1 := by
  unfold Vec3.normalize
  rw [if_neg h, Vec3.norm_smul, abs_of_nonneg
    (div_nonneg zero_le_one (Vec3.norm_nonneg a))]
  field_simp

theorem Interceptor.calculateMaxAcceleration_nonneg (a : Agent)
    (h : 0 ≤ a.staticConfig.maxReferenceAcceleration) :
    0 ≤ Interceptor.CalculateMaxAcceleration a := by
  unfold Interceptor.CalculateMaxAcceleration
  have hg : (0:ℝ) ≤ constants.kGravity := by unfold constants.kGravity; norm_num
  dsimp only
  exact mul_nonneg (sq_nonneg _) (mul_nonneg h hg)

/-- C1 (counterexample): the claim fails as stated.  After `MarkAsHit` moves
the agent to TERMINATED, a later `Update` at a time past launch (here
`t = 1/2` with launch time 0 and boost time 1) recomputes the phase member to
BOOST — a backward move from TERMINATED (index 5) to BOOST (index 2) under an
allowed operation at a non-decreasing time. -/
theorem C1_counterexample :
    (Agent.MarkAsHit sampleAgent).flightPhase = FlightPhase.TERMINATED
    ∧ (Micromissile.Update ⟨Agent.MarkAsHit sampleAgent, none, none⟩
        (1/2) 0 idIntegrator).1.self.flightPhase = FlightPhase.BOOST
    ∧ FlightPhase.idx FlightPhase.BOOST < FlightPhase.idx FlightPhase.TERMINATED := by
  refine ⟨rfl, ?_, by decide⟩
  have hphase : (Agent.MarkAsHit sampleAgent).updateFlightPhase (1/2)
      = FlightPhase.BOOST := by
    unfold Agent.updateFlightPhase Agent.MarkAsHit sampleAgent
    norm_num
  unfold Micromissile.Update
  simp only [hphase]
  simp

/-- C1 (amended): under sequences of Update/Step/AssignTarget/CheckTarget at
non-decreasing times in which Update is never invoked on an agent that is
already TERMINATED, the flight-phase index never decreases (the forward order
INITIALIZED → READY → BOOST → MIDCOURSE → TERMINAL → TERMINATED); a freshly
constructed agent (INITIALIZED or READY) satisfies the reachability
invariant; and `MarkAsHit` moves any phase directly to TERMINATED.  Without
the no-update-after-TERMINATED proviso the code regresses the phase, as the
counterexample shows. -/
theorem C1_phase_monotone :
    (∀ (integ : Integrator) (tLow : ℝ) (m : MState) (ops : List Op),
      PhaseInv m tLow → ValidFrom integ tLow m ops →
      FlightPhase.idx m.self.flightPhase ≤
        FlightPhase.idx (execOps integ m ops).self.flightPhase)
    ∧ (∀ (m : MState) (tLow : ℝ),
        m.self.flightPhase = FlightPhase.INITIALIZED
          ∨ m.self.flightPhase = FlightPhase.READY →
        PhaseInv m tLow)
    ∧ (∀ a : Agent, (Agent.MarkAsHit a).flightPhase = FlightPhase.TERMINATED) := by
  refine ⟨fun integ tLow m ops hInv hValid =>
      execOps_mono integ ops m tLow hInv hValid, ?_, fun _ => rfl⟩
  intro m tLow h
  rcases h with h | h <;>
    exact ⟨fun hb => absurd (h.symm.trans hb) (by decide),
      fun hb => absurd (h.symm.trans hb) (by decide),
      fun hb => absurd (h.symm.trans hb) (by decide)⟩

/-- C1 (witness): the monotonicity theorem applied to a concrete ready agent
and the concrete operation sequence Update(1), Step(1, 1), CheckTarget. -/
theorem C1_phase_monotone_witness :
    FlightPhase.idx (MState.mk sampleAgent none none).self.flightPhase ≤
      FlightPhase.idx (execOps idIntegrator (MState.mk sampleAgent none none)
        [Op.update 1 0, Op.step 1 1, Op.checkTarget]).self.flightPhase := by
  refine C1_phase_monotone.1 idIntegrator 0 _ _
    (C1_phase_monotone.2.1 _ 0 (Or.inr rfl)) ?_
  refine ⟨by norm_num, by simp [sampleAgent], ?_⟩
  simp [ValidFrom]

/-- C2 (counterexample): the claim's "if and only if" fails on the declared
phase TERMINATED.  For an agent whose launch time (10) has not yet arrived,
an update at `t = 0` leaves the TERMINATED phase in place at the dispatch
switch, and `Agent::Update` throws even though TERMINATED is one of the six
declared states. -/
theorem C2_counterexample :
    (Agent.MarkAsHit lateAgent).updateFlightPhase 0 = FlightPhase.TERMINATED
    ∧ ((Agent.MarkAsHit lateAgent).Update 0).2 = some "Invalid flight phase" := by
  have hphase : (Agent.MarkAsHit lateAgent).updateFlightPhase 0
      = FlightPhase.TERMINATED := by
    unfold Agent.updateFlightPhase Agent.MarkAsHit lateAgent sampleAgent
    norm_num
  refine ⟨hphase, ?_⟩
  unfold Agent.Update
  simp only [hphase]

/-- C2 (amended): `Agent::Update` signals a fatal error if and only if the
flight phase reaching the dispatch switch is not one of the five handled
states INITIALIZED, READY, BOOST, MIDCOURSE, TERMINAL — equivalently, in the
embedding, exactly when the recomputed phase is TERMINATED, which falls
through to the throwing `default` branch even though it is a declared
state. -/
theorem C2_dispatch_error_iff :
    ∀ (a : Agent) (t : ℝ),
      ((a.Update t).2 ≠ none ↔ a.updateFlightPhase t = FlightPhase.TERMINATED) := by
  intro a t
  unfold Agent.Update
  rcases h : a.updateFlightPhase t <;> simp [h]

/-- C3: the proportional-navigation command retrieved from
`Micromissile::CalculateAccelerationInput` has magnitude at most the max
commandable acceleration `(speed/referenceSpeed)^2 * maxReferenceAccel * g0`
(for a validated configuration, i.e. a nonnegative max reference
acceleration), and when the raw command exceeds that bound the result is the
raw command rescaled to the bound with its direction preserved. -/
theorem C3_pn_command_clamped :
    ∀ (a : Agent) (so : SensorOutput),
      0 ≤ a.staticConfig.maxReferenceAcceleration →
      (Micromissile.CalculateAccelerationInput a so).norm ≤
        Interceptor.CalculateMaxAcceleration a
      ∧ ((Micromissile.rawAccelerationInput a so).norm >
            Interceptor.CalculateMaxAcceleration a →
          Micromissile.CalculateAccelerationInput a so =
            Vec3.smul (Interceptor.CalculateMaxAcceleration a)
              (Micromissile.rawAccelerationInput a so).normalize) := by
  intro a so h
  have hmax := Interceptor.calculateMaxAcceleration_nonneg a h
  unfold Micromissile.CalculateAccelerationInput
  dsimp only
  split_ifs with hgt
  · constructor
    · have hne : (Micromissile.rawAccelerationInput a so).norm ≠ 0 := by
        intro h0
        rw [h0] at hgt
        exact absurd hgt (not_lt.mpr hmax)
      rw [Vec3.norm_smul, Vec3.norm_normalize _ hne, mul_one,
        abs_of_nonneg hmax]
    · intro _; rfl
  · exact ⟨not_lt.mp hgt, fun hc => absurd hc hgt⟩

/-- C3 (witness): the clamp theorem at a concrete agent (max reference
acceleration 1) and the boresight sensor output. -/
theorem C3_pn_command_clamped_witness :
    (Micromissile.CalculateAccelerationInput sampleAgent sampleSensorOutput).norm ≤
      Interceptor.CalculateMaxAcceleration sampleAgent
    ∧ ((Micromissile.rawAccelerationInput sampleAgent sampleSensorOutput).norm >
          Interceptor.CalculateMaxAcceleration sampleAgent →
        Micromissile.CalculateAccelerationInput sampleAgent sampleSensorOutput =
          Vec3.smul (Interceptor.CalculateMaxAcceleration sampleAgent)
            (Micromissile.rawAccelerationInput sampleAgent sampleSensorOutput).normalize) :=
  C3_pn_command_clamped sampleAgent sampleSensorOutput
    (by unfold sampleAgent; norm_num)

/-- C8: `HasHitTarget` returns false with no assigned target; with an
assigned target it holds exactly when the distance to the target is at most
the hit radius — equality is a hit, any strictly greater distance is not. -/
theorem C8_has_hit_target :
    (∀ a : Agent, ¬ a.HasHitTarget none)
    ∧ (∀ a tgt : Agent,
        a.HasHitTarget (some tgt) ↔
          (tgt.GetPosition.sub a.GetPosition).norm ≤ a.staticConfig.hitRadius)
    ∧ (∀ a tgt : Agent,
        (tgt.GetPosition.sub a.GetPosition).norm = a.staticConfig.hitRadius →
        a.HasHitTarget (some tgt))
    ∧ (∀ a tgt : Agent,
        a.staticConfig.hitRadius < (tgt.GetPosition.sub a.GetPosition).norm →
        ¬ a.HasHitTarget (some tgt)) := by
  refine ⟨fun a h => h, fun a tgt => Iff.rfl, fun a tgt h => le_of_eq h,
    fun a tgt h hc => absurd hc (not_le.mpr h)⟩

/-- C8 (witness): the agent at the origin with hit radius 5 hits the target
at (3, 4, 0) — distance exactly 5 — and the same agent with hit radius 1 does
not. -/
theorem C8_has_hit_target_witness :
    radiusAgent.HasHitTarget (some offsetAgent)
    ∧ ¬ sampleAgent.HasHitTarget (some offsetAgent) := by
  have hdist : (offsetAgent.GetPosition.sub radiusAgent.GetPosition).norm = 5 := by
    unfold radiusAgent offsetAgent sampleAgent stateZero
    unfold Agent.GetPosition Vec3.norm Vec3.normSq Vec3.sub Vec3.zero
    norm_num
    rw [show (25:ℝ) = 5 ^ 2 by norm_num, Real.sqrt_sq (by norm_num)]
  constructor
  · refine C8_has_hit_target.2.2.1 radiusAgent offsetAgent ?_
    rw [hdist]
    unfold radiusAgent sampleAgent
    norm_num
  · refine C8_has_hit_target.2.2.2 sampleAgent offsetAgent ?_
    have hdist' : (offsetAgent.GetPosition.sub sampleAgent.GetPosition).norm = 5 := by
      unfold offsetAgent sampleAgent stateZero
      unfold Agent.GetPosition Vec3.norm Vec3.normSq Vec3.sub Vec3.zero
      norm_num
      rw [show (25:ℝ) = 5 ^ 2 by norm_num, Real.sqrt_sq (by norm_num)]
    rw [hdist']
    unfold sampleAgent
    norm_num

theorem Vec3.norm_eq (v : Vec3) (r : ℝ) (hr : 0 ≤ r) (h : v.normSq = r ^ 2) :
    v.norm = r := by
  unfold Vec3.norm
  rw [h, Real.sqrt_sq hr]

theorem Vec3.normalize_eval (v : Vec3) (r : ℝ) (hr : 0 < r)
    (h : v.normSq = r ^ 2) :
    v.normalize = Vec3.smul (1 / r) v := by
  unfold Vec3.normalize
  rw [Vec3.norm_eq v r (le_of_lt hr) h, if_neg (ne_of_gt hr)]

/-- The normalized principal axes of the boresight example's sensing agent:
roll (0,1,0), pitch (1,0,0), yaw (0,0,1). -/
theorem senseSelf_axes :
    senseSelf.GetNormalizedPrincipalAxes =
      ⟨⟨0, 1, 0⟩, ⟨1, 0, 0⟩, ⟨0, 0, 1⟩⟩ := by
  unfold Agent.GetNormalizedPrincipalAxes Agent.GetPrincipalAxes
  unfold senseSelf sampleAgent Agent.GetVelocity
  dsimp only
  norm_num [Vec3.cross]
  refine ⟨?_, ?_, ?_⟩
  · rw [Vec3.normalize_eval _ 4 (by norm_num) (by unfold Vec3.normSq; norm_num)]
    unfold Vec3.smul; norm_num
  · rw [Vec3.normalize_eval _ 4 (by norm_num) (by unfold Vec3.normSq; norm_num)]
    unfold Vec3.smul; norm_num
  · rw [Vec3.normalize_eval _ 16 (by norm_num) (by unfold Vec3.normSq; norm_num)]
    unfold Vec3.smul; norm_num

/-- The boresight example's position observation: relative position (0,4,0),
range 4, azimuth 0, elevation 0. -/
theorem sensePosition_example :
    IdealSensor.SensePosition senseSelf senseTarget = (⟨0, 4, 0⟩, 4, 0, 0) := by
  have n040 : (Vec3.mk 0 4 0).norm = 4 :=
    Vec3.norm_eq _ 4 (by norm_num) (by unfold Vec3.normSq; norm_num)
  have n000 : (Vec3.mk 0 0 0).norm = 0 :=
    Vec3.norm_eq _ 0 (by norm_num) (by unfold Vec3.normSq; norm_num)
  unfold IdealSensor.SensePosition
  rw [senseSelf_axes]
  norm_num [Vec3.sub, Vec3.dot, Vec3.smul, Agent.GetPosition,
    senseTarget, senseSelf, sampleAgent, n040, n000, Real.arctan_zero]

/-- The boresight example's velocity observation: range rate -2, azimuth rate
1/2, elevation rate -1/4. -/
theorem senseVelocity_example :
    IdealSensor.SenseVelocity senseSelf senseTarget = (-2, 1/2, -1/4) := by
  have n040 : (Vec3.mk 0 4 0).norm = 4 :=
    Vec3.norm_eq _ 4 (by norm_num) (by unfold Vec3.normSq; norm_num)
  have n0m20 : (Vec3.mk 0 (-2) 0).norm = 2 :=
    Vec3.norm_eq _ 2 (by norm_num) (by unfold Vec3.normSq; norm_num)
  have n200 : (Vec3.mk 2 0 0).norm = 2 :=
    Vec3.norm_eq _ 2 (by norm_num) (by unfold Vec3.normSq; norm_num)
  have n00m1 : (Vec3.mk 0 0 (-1)).norm = 1 :=
    Vec3.norm_eq _ 1 (by norm_num) (by unfold Vec3.normSq; norm_num)
  have n400 : (Vec3.mk 4 0 0).norm = 4 :=
    Vec3.norm_eq _ 4 (by norm_num) (by unfold Vec3.normSq; norm_num)
  have n004 : (Vec3.mk 0 0 4).norm = 4 :=
    Vec3.norm_eq _ 4 (by norm_num) (by unfold Vec3.normSq; norm_num)
  unfold IdealSensor.SenseVelocity
  rw [senseSelf_axes]
  norm_num [Vec3.sub, Vec3.dot, Vec3.smul, Vec3.cross, Agent.GetPosition,
    Agent.GetVelocity, senseTarget, senseSelf, sampleAgent, n040, n0m20,
    n200, n00m1, n400, n004]

/-- C7: for a sensing agent at the origin with velocity (0,4,0) and a target
at (0,4,0) with velocity (2,2,-1), `Sense` returns relative position (0,4,0),
range 4, azimuth 0, elevation 0, range rate -2, azimuth rate 0.5 and
elevation rate -0.25. -/
theorem C7_sensor_boresight :
    IdealSensor.Sense senseSelf senseTarget =
      { positionCartesian := ⟨0, 4, 0⟩
        range := 4
        azimuth := 0
        elevation := 0
        rangeRate := -2
        azimuthRate := 1/2
        elevationRate := -1/4 } := by
  unfold IdealSensor.Sense
  rw [sensePosition_example, senseVelocity_example]

/-- `Micromissile::UpdateMidCourse` depends on the fresh uniform draw only
through the comparison with the target's kill probability: two draws on the
same side of the kill probability produce identical results. -/
theorem Micromissile.updateMidCourse_draw_congr (m : MState) (t : ℝ)
    (integ : Integrator) (r1 r2 : ℝ)
    (hiff : ∀ tgt : Agent, m.target = some tgt →
      (r1 < tgt.staticConfig.killProbability ↔
        r2 < tgt.staticConfig.killProbability)) :
    Micromissile.UpdateMidCourse m t r1 integ =
      Micromissile.UpdateMidCourse m t r2 integ := by
  classical
  rcases m with ⟨self, tmodel, tgt⟩
  rcases tgt with _ | tgt <;> rcases tmodel with _ | tm0 <;>
    simp only [Micromissile.UpdateMidCourse]
  rcases h : (tm0.Update t).2 with _ | e
  · have hk := hiff tgt rfl
    rw [if_congr (and_congr_right fun _ => hk) rfl rfl]
  · rfl

/-- C4 (amended): the per-tick core computation is deterministic in the agent,
target and target-model states, the time, the integrator collaborator, and
the sampled uniform value: two runs of `Update(t)` from identical states
whose fresh uniform draws fall on the same side of the target's kill
probability produce identical results.  (Identical draws are the special
case; the counterexample shows the hypothesis on the draws cannot be
dropped, because `GenerateRandomUniform` reseeds per call.) -/
theorem C4_update_deterministic_given_draw :
    ∀ (m : MState) (t : ℝ) (integ : Integrator) (r1 r2 : ℝ),
      (∀ tgt : Agent, m.target = some tgt →
        (r1 < tgt.staticConfig.killProbability ↔
          r2 < tgt.staticConfig.killProbability)) →
      Micromissile.Update m t r1 integ = Micromissile.Update m t r2 integ := by
  intro m t integ r1 r2 hiff
  unfold Micromissile.Update
  rcases hp : m.self.updateFlightPhase t <;> simp only [hp]
  · exact Micromissile.updateMidCourse_draw_congr _ t integ r1 r2 hiff
  · exact Micromissile.updateMidCourse_draw_congr _ t integ r1 r2 hiff

/-- C4 (witness): determinism-given-the-draw at a concrete missile with an
assigned target of kill probability 1/2 and the two draws 1/8 and 1/4 (both
below 1/2). -/
theorem C4_update_deterministic_given_draw_witness :
    Micromissile.Update ((MState.mk sampleAgent none none).AssignTarget sampleAgent)
        2 (1/8) idIntegrator =
      Micromissile.Update ((MState.mk sampleAgent none none).AssignTarget sampleAgent)
        2 (1/4) idIntegrator := by
  refine C4_update_deterministic_given_draw _ 2 idIntegrator (1/8) (1/4) ?_
  intro tgt htgt
  have : tgt = sampleAgent := by
    simpa [MState.AssignTarget] using htgt.symm
  subst this
  unfold sampleAgent
  norm_num

/-- C4 (counterexample): determinism across runs fails as claimed.  A missile
whose assigned target sits inside its hit radius (both at the origin, kill
probability 1/2) is updated twice at `t = 2` from identical agent, target and
target-model states; the run whose fresh uniform draw is 0 marks the missile
hit, the run whose draw is 3/4 leaves it unhit — `GenerateRandomUniform`
reseeds from `std::random_device` on every call, so two such runs are
possible. -/
theorem C4_counterexample :
    (Micromissile.Update ((MState.mk sampleAgent none none).AssignTarget sampleAgent)
        2 0 idIntegrator).1.self.hit = true
    ∧ (Micromissile.Update ((MState.mk sampleAgent none none).AssignTarget sampleAgent)
        2 (3/4) idIntegrator).1.self.hit = false := by
  have hphase : sampleAgent.updateFlightPhase 2 = FlightPhase.MIDCOURSE := by
    unfold Agent.updateFlightPhase sampleAgent
    norm_num
  have hmodel : ((mkModelAgent sampleAgent.state).Update 2).2 = none := by
    have h : (mkModelAgent sampleAgent.state).updateFlightPhase 2
        = FlightPhase.MIDCOURSE := by
      unfold Agent.updateFlightPhase mkModelAgent
      norm_num
    unfold Agent.Update
    simp only [h]
  have hhit : ∀ a : Agent, a.state.position = stateZero.position →
      a.staticConfig.hitRadius = 1 →
      a.HasHitTarget (some sampleAgent) := by
    intro a hpos hrad
    show (sampleAgent.GetPosition.sub a.GetPosition).norm ≤ _
    unfold Agent.GetPosition
    rw [hpos, hrad]
    unfold sampleAgent stateZero
    have : (Vec3.zero.sub Vec3.zero).norm = 0 :=
      Vec3.norm_eq _ 0 (by norm_num)
        (by unfold Vec3.sub Vec3.zero Vec3.normSq; norm_num)
    simp only []
    rw [this]
    norm_num
  constructor
  · unfold Micromissile.Update MState.AssignTarget
    simp only [hphase]
    unfold Micromissile.UpdateMidCourse
    simp only [hmodel]
    rw [if_pos (by
      unfold sampleAgent; norm_num :
        (2:ℝ) - ({ sampleAgent with flightPhase := FlightPhase.MIDCOURSE } : Agent).sensorUpdateTime ≥
          1 / ({ sampleAgent with flightPhase := FlightPhase.MIDCOURSE } : Agent).dynamicConfig.sensorFrequency)]
    have hkill : ({ sampleAgent with flightPhase := FlightPhase.MIDCOURSE, sensorUpdateTime := (2:ℝ) } : Agent).HasHitTarget (some sampleAgent) ∧
        (0:ℝ) < sampleAgent.staticConfig.killProbability :=
      ⟨hhit _ rfl rfl, by unfold sampleAgent; norm_num⟩
    rw [if_pos hkill]
    rfl
  · unfold Micromissile.Update MState.AssignTarget
    simp only [hphase]
    unfold Micromissile.UpdateMidCourse
    simp only [hmodel]
    rw [if_pos (by
      unfold sampleAgent; norm_num :
        (2:ℝ) - ({ sampleAgent with flightPhase := FlightPhase.MIDCOURSE } : Agent).sensorUpdateTime ≥
          1 / ({ sampleAgent with flightPhase := FlightPhase.MIDCOURSE } : Agent).dynamicConfig.sensorFrequency)]
    rw [if_neg (fun hc => absurd hc.2 (by unfold sampleAgent; norm_num))]
    rfl

namespace assignment

/-- `std::upper_bound` on the sorted active list: when some active index
exceeds the cursor, the selected index is the least such. -/
theorem upperBoundNext_least (active : List ℕ) (cursor : ℤ)
    (hsort : List.Sorted (· < ·) active) (j0 : ℕ) (hj0 : j0 ∈ active)
    (hgt : cursor < (j0 : ℤ)) :
    IsLeast {j | j ∈ active ∧ cursor < (j : ℤ)} (upperBoundNext active cursor) := by
  induction active with
  | nil => cases hj0
  | cons a rest ih =>
    by_cases ha : cursor < (a : ℤ)
    · have hsel : upperBoundNext (a :: rest) cursor = a := by
        unfold upperBoundNext
        rw [List.find?_cons_of_pos _ (by simpa using ha)]
      rw [hsel]
      refine ⟨⟨List.mem_cons_self a rest, ha⟩, ?_⟩
      rintro b ⟨hmem, _⟩
      rcases List.mem_cons.mp hmem with rfl | hmem
      · exact le_refl _
      · exact le_of_lt (List.rel_of_sorted_cons hsort b hmem)
    · have hj0' : j0 ∈ rest := by
        rcases List.mem_cons.mp hj0 with rfl | h
        · exact absurd hgt ha
        · exact h
      have hfind : (rest.find? (fun j : ℕ => decide (cursor < (j : ℤ)))).isSome := by
        rw [List.find?_isSome]
        exact ⟨j0, hj0', by simpa using hgt⟩
      rcases hsome : rest.find? (fun j : ℕ => decide (cursor < (j : ℤ))) with _ | j
      · rw [hsome] at hfind; cases hfind
      · have hsel : upperBoundNext (a :: rest) cursor = j := by
          unfold upperBoundNext
          rw [List.find?_cons_of_neg _ (by simpa using ha), hsome]
        have hrec : upperBoundNext rest cursor = j := by
          unfold upperBoundNext
          rw [hsome]
        have hih := ih hsort.of_cons hj0'
        rw [hrec] at hih
        rw [hsel]
        refine ⟨⟨List.mem_cons_of_mem a hih.1.1, hih.1.2⟩, ?_⟩
        rintro b ⟨hmem, hb⟩
        rcases List.mem_cons.mp hmem with rfl | hmem
        · exact absurd hb ha
        · exact hih.2 ⟨hmem, hb⟩

/-- `std::upper_bound` wrap-around: when no active index exceeds the cursor,
the selected index is the least (first) active index. -/
theorem upperBoundNext_wrap (active : List ℕ) (cursor : ℤ)
    (hsort : List.Sorted (· < ·) active) (hne : active ≠ [])
    (hall : ∀ j ∈ active, ¬ cursor < (j : ℤ)) :
    IsLeast {j | j ∈ active} (upperBoundNext active cursor) := by
  rcases active with _ | ⟨a, rest⟩
  · exact absurd rfl hne
  · have hnone : (a :: rest).find? (fun j : ℕ => decide (cursor < (j : ℤ))) = none := by
      rw [List.find?_eq_none]
      intro x hx
      simpa using hall x hx
    have hsel : upperBoundNext (a :: rest) cursor = a := by
      unfold upperBoundNext
      rw [hnone]
      rfl
    rw [hsel]
    refine ⟨List.mem_cons_self a rest, ?_⟩
    intro b hmem
    rcases List.mem_cons.mp hmem with rfl | hmem
    · exact le_refl _
    · exact le_of_lt (List.rel_of_sorted_cons hsort b hmem)

/-- C6: the round-robin strategy processes the assignable interceptors in
increasing index order, pairing each with the smallest active threat index
strictly greater than the cursor (wrapping to the smallest active index when
none is greater) and moving the cursor to the chosen index; on four
eligible interceptors and two eligible threats with the cursor at the
out-of-range sentinel -1 it yields exactly the pairs
{0→0, 1→1, 2→0, 3→1} (the list is in reverse acceptance order because the
source pushes each pair to the front). -/
theorem C6_round_robin :
    (∀ (active : List ℕ) (cursor : ℤ), List.Sorted (· < ·) active →
      ∀ j0 ∈ active, cursor < (j0 : ℤ) →
        IsLeast {j | j ∈ active ∧ cursor < (j : ℤ)} (upperBoundNext active cursor))
    ∧ (∀ (active : List ℕ) (cursor : ℤ), List.Sorted (· < ·) active →
        active ≠ [] → (∀ j ∈ active, ¬ cursor < (j : ℤ)) →
        IsLeast {j | j ∈ active} (upperBoundNext active cursor))
    ∧ (∀ (i : ℕ) (is active : List ℕ) (cursor : ℤ) (acc : List (ℕ × ℕ)),
        RoundRobinAssignment.go (i :: is) active cursor acc =
          RoundRobinAssignment.go is active ((upperBoundNext active cursor : ℕ) : ℤ)
            ((i, upperBoundNext active cursor) :: acc))
    ∧ RoundRobinAssignment.AssignImpl rrExIps rrExTts (-1)
        = ([(3, 1), (2, 0), (1, 1), (0, 0)], 1)
    ∧ (RoundRobinAssignment.AssignImpl rrExIps rrExTts (-1)).1.Perm
        [(0, 0), (1, 1), (2, 0), (3, 1)] := by
  refine ⟨fun active cursor hs j0 hj0 hgt =>
      upperBoundNext_least active cursor hs j0 hj0 hgt,
    fun active cursor hs hne hall =>
      upperBoundNext_wrap active cursor hs hne hall,
    fun i is active cursor acc => rfl, by decide, by decide⟩

/-- C6 (witness): the selection and cursor rules instantiated on the concrete
active list [0, 1] with cursor 0: the chosen threat is 1, the least active
index exceeding the cursor. -/
theorem C6_round_robin_witness :
    IsLeast {j : ℕ | j ∈ [0, 1] ∧ (0 : ℤ) < (j : ℤ)} (upperBoundNext [0, 1] 0) :=
  C6_round_robin.1 [0, 1] 0 (by decide) 1 (by decide) (by decide)

/-- The square-root bridge is strictly monotone and injective on nonnegative
rationals: order and equality of distances agree with those of the squared
distances. -/
theorem sqrtQ_facts : ∀ a b : ℚ, 0 ≤ a → 0 ≤ b →
    ((sqrtQ a < sqrtQ b ↔ a < b) ∧ (sqrtQ a = sqrtQ b ↔ a = b)) := by
  intro a b ha hb
  have ha' : (0:ℝ) ≤ (a:ℝ) := by exact_mod_cast ha
  have hb' : (0:ℝ) ≤ (b:ℝ) := by exact_mod_cast hb
  constructor
  · rw [sqrtQ, sqrtQ, Real.sqrt_lt_sqrt_iff ha']
    exact ⟨fun h => by exact_mod_cast h, fun h => by exact_mod_cast h⟩
  · rw [sqrtQ, sqrtQ, Real.sqrt_inj ha' hb']
    exact ⟨fun h => by exact_mod_cast h, fun h => by exact_mod_cast h⟩

/-- The sort comparator transports along any distance map that preserves
order and equality on the occurring (nonnegative) distances. -/
theorem itdLt_mapD {f : ℚ → ℝ}
    (hf : ∀ a b : ℚ, 0 ≤ a → 0 ≤ b →
      ((f a < f b ↔ a < b) ∧ (f a = f b ↔ a = b)))
    (x y : ITD ℚ) (hx : 0 ≤ x.distance) (hy : 0 ≤ y.distance) :
    itdLt (x.mapD f) (y.mapD f) ↔ itdLt x y := by
  obtain ⟨hlt, heq⟩ := hf x.distance y.distance hx hy
  unfold itdLt ITD.mapD
  dsimp only
  by_cases hde : x.distance = y.distance
  · rw [if_neg (show ¬ f x.distance ≠ f y.distance by simpa using heq.mpr hde)]
    rw [if_neg (show ¬ x.distance ≠ y.distance by simpa using hde)]
  · rw [if_pos (show f x.distance ≠ f y.distance by simpa using heq.not.mpr hde)]
    rw [if_pos hde]
    exact hlt

/-- The non-strict comparator transports likewise. -/
theorem itdLe_mapD {f : ℚ → ℝ}
    (hf : ∀ a b : ℚ, 0 ≤ a → 0 ≤ b →
      ((f a < f b ↔ a < b) ∧ (f a = f b ↔ a = b)))
    (x y : ITD ℚ) (hx : 0 ≤ x.distance) (hy : 0 ≤ y.distance) :
    itdLe (x.mapD f) (y.mapD f) ↔ itdLe x y :=
  not_congr (itdLt_mapD hf y x hy hx)

/-- Ordered insertion commutes with the distance map. -/
theorem orderedInsert_mapD {f : ℚ → ℝ}
    (hf : ∀ a b : ℚ, 0 ≤ a → 0 ≤ b →
      ((f a < f b ↔ a < b) ∧ (f a = f b ↔ a = b)))
    (x : ITD ℚ) (hx : 0 ≤ x.distance) :
    ∀ (l : List (ITD ℚ)), (∀ y ∈ l, 0 ≤ y.distance) →
      List.orderedInsert itdLe (x.mapD f) (l.map (ITD.mapD f)) =
        (List.orderedInsert itdLe x l).map (ITD.mapD f) := by
  intro l
  induction l with
  | nil => intro _; rfl
  | cons b rest ih =>
    intro hl
    have hb : 0 ≤ b.distance := hl b (List.mem_cons_self b rest)
    simp only [List.map_cons, List.orderedInsert]
    by_cases hc : itdLe x b
    · rw [if_pos ((itdLe_mapD hf x b hx hb).mpr hc), if_pos hc]
      rfl
    · rw [if_neg (fun hcm => hc ((itdLe_mapD hf x b hx hb).mp hcm)), if_neg hc,
        List.map_cons, ih (fun y hy => hl y (List.mem_cons_of_mem b hy))]

/-- The sort of `DistanceAssignment::AssignImpl` commutes with the distance
map. -/
theorem sortITD_mapD {f : ℚ → ℝ}
    (hf : ∀ a b : ℚ, 0 ≤ a → 0 ≤ b →
      ((f a < f b ↔ a < b) ∧ (f a = f b ↔ a = b))) :
    ∀ (l : List (ITD ℚ)), (∀ y ∈ l, 0 ≤ y.distance) →
      sortITD (l.map (ITD.mapD f)) = (sortITD l).map (ITD.mapD f) := by
  intro l
  induction l with
  | nil => intro _; rfl
  | cons b rest ih =>
    intro hl
    have hb : 0 ≤ b.distance := hl b (List.mem_cons_self b rest)
    have hrest : ∀ y ∈ rest, 0 ≤ y.distance :=
      fun y hy => hl y (List.mem_cons_of_mem b hy)
    show List.orderedInsert itdLe (b.mapD f) (sortITD (rest.map (ITD.mapD f)))
        = _
    rw [ih hrest]
    exact orderedInsert_mapD hf b hb (sortITD rest)
      (fun y hy => hrest y ((List.perm_insertionSort itdLe rest).mem_iff.mp hy))

/-- The greedy sweep reads only the index fields, so it is unchanged by the
distance map. -/
theorem sweep_mapD (f : ℚ → ℝ) :
    ∀ (l : List (ITD ℚ)) (cI cT : List ℕ) (acc : List (ℕ × ℕ)),
      sweep (l.map (ITD.mapD f)) cI cT acc = sweep l cI cT acc := by
  intro l
  induction l with
  | nil => intro _ _ _; rfl
  | cons x rest ih =>
    intro cI cT acc
    show sweep (x.mapD f :: rest.map (ITD.mapD f)) cI cT acc = _
    unfold sweep
    dsimp only [ITD.mapD]
    by_cases hc : x.interceptorIndex ∉ cI ∧ x.threatIndex ∉ cT
    · rw [if_pos hc, if_pos hc, ih]
    · rw [if_neg hc, if_neg hc, ih]

/-- The multi-round greedy loop reads only the index fields, so it is
unchanged by the distance map. -/
theorem rounds_mapD (f : ℚ → ℝ) :
    ∀ (fuel : ℕ) (l : List (ITD ℚ)) (acc : List (ℕ × ℕ)),
      rounds fuel (l.map (ITD.mapD f)) acc = rounds fuel l acc := by
  intro fuel
  induction fuel with
  | zero => intro _ _; rfl
  | succ fuel ih =>
    intro l acc
    rcases l with _ | ⟨x, rest⟩
    · rfl
    · show rounds (fuel + 1) (x.mapD f :: rest.map (ITD.mapD f)) acc = _
      unfold rounds
      rw [show x.mapD f :: rest.map (ITD.mapD f)
          = (x :: rest).map (ITD.mapD f) from rfl, sweep_mapD]
      dsimp only
      rw [List.filter_map]
      have : ((fun y : ITD ℚ =>
          decide (y.interceptorIndex ∉ (sweep (x :: rest) [] [] acc).2))
            = (fun y : ITD ℝ =>
          decide (y.interceptorIndex ∉ (sweep (x :: rest) [] [] acc).2))
            ∘ ITD.mapD f) := rfl
      rw [← this, ih]

/-- The candidate tuples of the distance-assignment example are the exact
squared-distance tuples carried through the square-root bridge (distances
√251, √1, √10, √182, √10, √182, √26, √146, interceptor-major). -/
theorem distEx_cands :
    interceptorThreatDistances distExIps distExTts
      = distExCandsQ.map (ITD.mapD sqrtQ) := by
  have h1 : GetAssignableInterceptorIndices distExIps = [0, 1, 2, 3] := by decide
  have h2 : GetActiveThreatIndices distExTts = [0, 1] := by decide
  unfold interceptorThreatDistances
  rw [h1, h2]
  unfold distExCandsQ ITD.mapD sqrtQ
  norm_num [distExIps, distExTts, eligibleAt, List.getD, Vec3.sub, Vec3.norm,
    Vec3.normSq, ITD.mk.injEq]

/-- C5: on interceptors at (1,2,1), (10,12,1), (10,12,1), (10,10,1) (all
eligible) and threats at (10,15,2), (1,2,2) (none hit), the distance-greedy
strategy produces exactly the pairing set {0→1, 1→0, 2→0, 3→1}: round one of
the documented sweep accepts (0,1) and (1,0), round two accepts (2,0) and
(3,1); the result list is in reverse acceptance order because the source
pushes each accepted pair to the front. -/
theorem C5_distance_assignment :
    DistanceAssignment.AssignImpl distExIps distExTts
        = [(3, 1), (2, 0), (1, 0), (0, 1)]
    ∧ (DistanceAssignment.AssignImpl distExIps distExTts).Perm
        [(0, 1), (1, 0), (2, 0), (3, 1)] := by
  have hmain : DistanceAssignment.AssignImpl distExIps distExTts
      = [(3, 1), (2, 0), (1, 0), (0, 1)] := by
    unfold DistanceAssignment.AssignImpl
    rw [if_neg (by decide), if_neg (by decide)]
    dsimp only
    rw [distEx_cands, List.length_map,
      sortITD_mapD sqrtQ_facts distExCandsQ (by decide), rounds_mapD]
    decide
  exact ⟨hmain, by rw [hmain]; decide⟩

/-- The assignable-interceptor index list contains no duplicates (it is a
sub-sequence of the enumeration indices). -/
theorem getAssignable_nodup (l : List AssignAgent) :
    (GetAssignableInterceptorIndices l).Nodup := by
  unfold GetAssignableInterceptorIndices
  have hsub : ((l.enum.filter (fun p => p.2.assignable)).map Prod.fst).Sublist
      (l.enum.map Prod.fst) := (List.filter_sublist _).map _
  exact hsub.nodup (List.enum_map_fst l ▸ List.nodup_range l.length)

/-- The round-robin loop pairs exactly the processed interceptors, in reverse
order, in front of the accumulator. -/
theorem roundRobin_go_fst (is : List ℕ) :
    ∀ (active : List ℕ) (cursor : ℤ) (acc : List (ℕ × ℕ)),
      (RoundRobinAssignment.go is active cursor acc).1.map Prod.fst
        = is.reverse ++ acc.map Prod.fst := by
  induction is with
  | nil => intro _ _ _; rfl
  | cons i is ih =>
    intro active cursor acc
    show (RoundRobinAssignment.go is active _ ((i, _) :: acc)).1.map Prod.fst = _
    rw [ih]
    simp

/-- Interceptors consumed at sweep entry stay consumed. -/
theorem sweep_consumed_mono {K : Type} :
    ∀ (l : List (ITD K)) (cI cT : List ℕ) (acc : List (ℕ × ℕ)) (i : ℕ),
      i ∈ cI → i ∈ (sweep l cI cT acc).2 := by
  intro l
  induction l with
  | nil => intro cI cT acc i h; exact h
  | cons x rest ih =>
    intro cI cT acc i h
    unfold sweep
    split_ifs with hc
    · exact ih _ _ _ i (List.mem_cons_of_mem _ h)
    · exact ih _ _ _ i h

/-- Every pair in the sweep result either was already in the accumulator or
has its interceptor in the returned consumed set. -/
theorem sweep_mem {K : Type} :
    ∀ (l : List (ITD K)) (cI cT : List ℕ) (acc : List (ℕ × ℕ))
      (p : ℕ × ℕ), p ∈ (sweep l cI cT acc).1 →
      p ∈ acc ∨ p.1 ∈ (sweep l cI cT acc).2 := by
  intro l
  induction l with
  | nil => intro cI cT acc p h; exact Or.inl h
  | cons x rest ih =>
    intro cI cT acc p h
    unfold sweep at h ⊢
    split_ifs at h ⊢ with hc
    · rcases ih _ _ _ p h with hmem | hmem
      · rcases List.mem_cons.mp hmem with rfl | hmem
        · exact Or.inr (sweep_consumed_mono rest _ _ _ _
            (List.mem_cons_self _ _))
        · exact Or.inl hmem
      · exact Or.inr hmem
    · exact ih _ _ _ p h

/-- The sweep keeps the interceptor components of the assignment list
duplicate-free: each acceptance requires an interceptor outside the consumed
set, and prior pairs are either consumed or outside the remaining tuples. -/
theorem sweep_fst_nodup {K : Type} :
    ∀ (l : List (ITD K)) (cI cT : List ℕ) (acc : List (ℕ × ℕ)),
      (acc.map Prod.fst).Nodup →
      (∀ i ∈ acc.map Prod.fst, i ∈ cI ∨ i ∉ l.map ITD.interceptorIndex) →
      ((sweep l cI cT acc).1.map Prod.fst).Nodup := by
  intro l
  induction l with
  | nil => intro cI cT acc hnd _; exact hnd
  | cons x rest ih =>
    intro cI cT acc hnd hinv
    unfold sweep
    split_ifs with hc
    · refine ih _ _ _ ?_ ?_
      · refine List.Nodup.cons ?_ hnd
        intro hmem
        rcases hinv x.interceptorIndex hmem with hcon | hnot
        · exact hc.1 hcon
        · exact hnot (List.mem_cons_self _ _)
      · intro i hi
        rcases List.mem_cons.mp hi with rfl | hi
        · exact Or.inl (List.mem_cons_self _ _)
        · rcases hinv i hi with hcon | hnot
          · exact Or.inl (List.mem_cons_of_mem _ hcon)
          · exact Or.inr (fun hmem => hnot (List.mem_cons_of_mem _ hmem))
    · refine ih _ _ _ hnd ?_
      intro i hi
      rcases hinv i hi with hcon | hnot
      · exact Or.inl hcon
      · exact Or.inr (fun hmem => hnot (List.mem_cons_of_mem _ hmem))

/-- The multi-round greedy loop keeps the interceptor components of the
assignment list duplicate-free, for any fuel. -/
theorem rounds_fst_nodup {K : Type} :
    ∀ (fuel : ℕ) (l : List (ITD K)) (acc : List (ℕ × ℕ)),
      (acc.map Prod.fst).Nodup →
      (∀ i ∈ acc.map Prod.fst, i ∉ l.map ITD.interceptorIndex) →
      ((rounds fuel l acc).map Prod.fst).Nodup := by
  intro fuel
  induction fuel with
  | zero => intro l acc hnd _; exact hnd
  | succ fuel ih =>
    intro l acc hnd hdisj
    rcases l with _ | ⟨x, rest⟩
    · exact hnd
    · show ((rounds fuel _ (sweep (x :: rest) [] [] acc).1).map Prod.fst).Nodup
      refine ih _ _ ?_ ?_
      · refine sweep_fst_nodup _ _ _ _ hnd ?_
        intro i hi
        exact Or.inr (hdisj i hi)
      · intro i hi
        rcases List.mem_map.mp hi with ⟨p, hp, rfl⟩
        rcases sweep_mem _ _ _ _ p hp with hpacc | hpcons
        · intro hmem
          rcases List.mem_map.mp hmem with ⟨y, hy, hyi⟩
          have hy' : y ∈ x :: rest := (List.filter_sublist _).mem hy
          exact hdisj p.1 (List.mem_map.mpr ⟨p, hpacc, rfl⟩)
            (List.mem_map.mpr ⟨y, hy', hyi⟩)
        · intro hmem
          rcases List.mem_map.mp hmem with ⟨y, hy, hyi⟩
          have := List.of_mem_filter hy
          rw [hyi] at this
          simp only [decide_eq_true_eq] at this
          exact this hpcons

theorem rounds_nil {K : Type} : ∀ (fuel : ℕ) (acc : List (ℕ × ℕ)),
    rounds (K := K) fuel [] acc = acc := by
  intro fuel acc
  cases fuel <;> rfl

/-- The first tuple of a round is always accepted (the per-sweep consumed
sets start empty), so its interceptor is consumed. -/
theorem sweep_head_consumed {K : Type} (x : ITD K) (rest : List (ITD K))
    (acc : List (ℕ × ℕ)) :
    x.interceptorIndex ∈ (sweep (x :: rest) [] [] acc).2 := by
  unfold sweep
  rw [if_pos (by simp)]
  exact sweep_consumed_mono rest _ _ _ _ (List.mem_cons_self _ _)

/-- The fuel of `rounds` is irrelevant once it reaches the list length: each
round removes at least its first tuple, so the loop reaches the empty list
within `length` rounds — the fuelled recursion computes the while-loop of
the source. -/
theorem rounds_fuel_irrelevant {K : Type} :
    ∀ (n : ℕ) (l : List (ITD K)), l.length ≤ n →
      ∀ (f1 f2 : ℕ) (acc : List (ℕ × ℕ)), l.length ≤ f1 → l.length ≤ f2 →
        rounds f1 l acc = rounds f2 l acc := by
  intro n
  induction n with
  | zero =>
    intro l hl f1 f2 acc _ _
    rw [List.length_eq_zero.mp (Nat.le_zero.mp hl), rounds_nil, rounds_nil]
  | succ n ih =>
    intro l hl f1 f2 acc h1 h2
    rcases l with _ | ⟨x, rest⟩
    · rw [rounds_nil, rounds_nil]
    · have hlen : rest.length + 1 ≤ n + 1 := by simpa using hl
      rcases f1 with _ | f1
      · exact absurd h1 (by simp)
      rcases f2 with _ | f2
      · exact absurd h2 (by simp)
      show rounds f1 ((x :: rest).filter _) (sweep (x :: rest) [] [] acc).1
        = rounds f2 ((x :: rest).filter _) (sweep (x :: rest) [] [] acc).1
      have hdrop : ((x :: rest).filter (fun y =>
          y.interceptorIndex ∉ (sweep (x :: rest) [] [] acc).2)).length
            ≤ rest.length := by
        rw [List.filter_cons_of_neg (by
          simpa using sweep_head_consumed x rest acc)]
        exact List.length_filter_le _ _
      exact ih _ (le_trans hdrop (Nat.lt_succ_iff.mp (Nat.lt_of_lt_of_le
          (Nat.lt_succ_self _) hlen)))
        f1 f2 _ (le_trans hdrop (Nat.lt_succ_iff.mp (Nat.lt_of_succ_le
          (by simpa using h1))))
        (le_trans hdrop (Nat.lt_succ_iff.mp (Nat.lt_of_succ_le
          (by simpa using h2))))

/-- C10: in the result of a single Assign call, each interceptor index
appears in at most one pair under either strategy, while a threat index may
appear in several pairs (as the round-robin example shows: threat 0 serves
interceptors 0 and 2). -/
theorem C10_interceptor_unique :
    (∀ (interceptors threats : List AssignAgent),
      ((DistanceAssignment.AssignImpl interceptors threats).map Prod.fst).Nodup)
    ∧ (∀ (interceptors threats : List AssignAgent) (cursor : ℤ),
        (((RoundRobinAssignment.AssignImpl interceptors threats cursor).1).map
          Prod.fst).Nodup)
    ∧ ¬ (((RoundRobinAssignment.AssignImpl rrExIps rrExTts (-1)).1).map
          Prod.snd).Nodup := by
  refine ⟨?_, ?_, by decide⟩
  · intro interceptors threats
    unfold DistanceAssignment.AssignImpl
    split_ifs with h1 h2
    · exact List.nodup_nil
    · exact List.nodup_nil
    · exact rounds_fst_nodup _ _ _ List.nodup_nil (by intro i hi; cases hi)
  · intro interceptors threats cursor
    unfold RoundRobinAssignment.AssignImpl
    split_ifs with h1 h2
    · exact List.nodup_nil
    · exact List.nodup_nil
    · rw [roundRobin_go_fst]
      simpa [List.nodup_reverse] using getAssignable_nodup interceptors

end assignment

namespace ThreadPool

/-- Every interleaving step preserves the conservation invariant. -/
theorem inv_step {N K : ℕ} {s t : PoolState} (hInv : Inv N K s)
    (hstep : Step s t) : Inv N K t := by
  obtain ⟨hsum, hcard⟩ := hInv
  cases hstep with
  | enterWait q d rest =>
    refine ⟨?_, ?_⟩
    · simp [Multiset.count_cons] at hsum ⊢
      omega
    · simpa using hcard
  | dequeue q d rest =>
    refine ⟨?_, ?_⟩
    · simp [Multiset.count_cons] at hsum ⊢
      omega
    · simpa using hcard
  | finish q d rest =>
    refine ⟨?_, ?_⟩
    · simp [Multiset.count_cons] at hsum ⊢
      omega
    · simpa using hcard

/-- The conservation invariant holds at every reachable state. -/
theorem inv_reachable {N K : ℕ} {s0 s : PoolState} (h0 : Inv N K s0)
    (hr : Reachable s0 s) : Inv N K s := by
  induction hr with
  | refl => exact h0
  | tail _ hstep ih => exact inv_step ih hstep

/-- C9: the barrier is exact.  For every pool of N ≥ 1 workers, from any
state in which K independent increment jobs have been queued and no worker
is mid-job, every reachable state in which `busy()` is false — the condition
on which `Wait()` returns — has the shared counter equal to exactly K: all K
jobs have executed to completion before `Wait()` returns. -/
theorem C9_wait_barrier :
    ∀ (N K : ℕ) (s0 s : PoolState), 1 ≤ N → initial N K s0 →
      Reachable s0 s → ¬ busy N s → s.done = K := by
  intro N K s0 s _ ⟨hq, hd, hcard, hnorun⟩ hr hnb
  have hInv : Inv N K s :=
    inv_reachable ⟨by rw [hd, hq, Multiset.count_eq_zero.mpr hnorun]; omega, hcard⟩ hr
  rw [busy, not_or, not_ne_iff, not_ne_iff] at hnb
  obtain ⟨hwait, hqz⟩ := hnb
  have hall : ∀ b ∈ s.workers, WorkerState.waiting = b := by
    rw [← Multiset.count_eq_card]
    rw [hwait, hInv.2]
  have hnorun' : s.workers.count WorkerState.running = 0 := by
    rw [Multiset.count_eq_zero]
    intro hmem
    exact absurd (hall _ hmem) (by decide)
  have := hInv.1
  rw [hqz, hnorun'] at this
  simpa using this

/-- C9 (witness): a two-worker pool runs three queued increment jobs to
completion; in the final non-busy state the counter is exactly 3.  The
interleaving: worker one enters the wait, worker two enters the wait, then
one worker dequeues and finishes each of the three jobs in turn and waits
again. -/
theorem C9_wait_barrier_witness :
    ¬ busy 2 ⟨0, 3, WorkerState.waiting ::ₘ WorkerState.waiting ::ₘ 0⟩ ∧
      (⟨0, 3, WorkerState.waiting ::ₘ WorkerState.waiting ::ₘ 0⟩ : PoolState).done = 3 := by
  refine ⟨by unfold busy; decide, ?_⟩
  have e1 : (⟨3, 0, WorkerState.waiting ::ₘ WorkerState.atTop ::ₘ 0⟩ : PoolState)
      = ⟨3, 0, WorkerState.atTop ::ₘ WorkerState.waiting ::ₘ 0⟩ := by
    rw [Multiset.cons_swap]
  have r1 : Reachable ⟨3, 0, WorkerState.atTop ::ₘ WorkerState.atTop ::ₘ 0⟩
      ⟨3, 0, WorkerState.atTop ::ₘ WorkerState.waiting ::ₘ 0⟩ :=
    e1 ▸ Reachable.tail (Reachable.refl _)
      (Step.enterWait 3 0 (WorkerState.atTop ::ₘ 0))
  have r2 : Reachable ⟨3, 0, WorkerState.atTop ::ₘ WorkerState.atTop ::ₘ 0⟩
      ⟨3, 0, WorkerState.waiting ::ₘ WorkerState.waiting ::ₘ 0⟩ :=
    Reachable.tail r1 (Step.enterWait 3 0 (WorkerState.waiting ::ₘ 0))
  have r3 : Reachable ⟨3, 0, WorkerState.atTop ::ₘ WorkerState.atTop ::ₘ 0⟩
      ⟨2, 0, WorkerState.running ::ₘ WorkerState.waiting ::ₘ 0⟩ :=
    Reachable.tail r2 (Step.dequeue 2 0 (WorkerState.waiting ::ₘ 0))
  have r4 : Reachable ⟨3, 0, WorkerState.atTop ::ₘ WorkerState.atTop ::ₘ 0⟩
      ⟨2, 1, WorkerState.atTop ::ₘ WorkerState.waiting ::ₘ 0⟩ :=
    Reachable.tail r3 (Step.finish 2 0 (WorkerState.waiting ::ₘ 0))
  have r5 : Reachable ⟨3, 0, WorkerState.atTop ::ₘ WorkerState.atTop ::ₘ 0⟩
      ⟨2, 1, WorkerState.waiting ::ₘ WorkerState.waiting ::ₘ 0⟩ :=
    Reachable.tail r4 (Step.enterWait 2 1 (WorkerState.waiting ::ₘ 0))
  have r6 : Reachable ⟨3, 0, WorkerState.atTop ::ₘ WorkerState.atTop ::ₘ 0⟩
      ⟨1, 1, WorkerState.running ::ₘ WorkerState.waiting ::ₘ 0⟩ :=
    Reachable.tail r5 (Step.dequeue 1 1 (WorkerState.waiting ::ₘ 0))
  have r7 : Reachable ⟨3, 0, WorkerState.atTop ::ₘ WorkerState.atTop ::ₘ 0⟩
      ⟨1, 2, WorkerState.atTop ::ₘ WorkerState.waiting ::ₘ 0⟩ :=
    Reachable.tail r6 (Step.finish 1 1 (WorkerState.waiting ::ₘ 0))
  have r8 : Reachable ⟨3, 0, WorkerState.atTop ::ₘ WorkerState.atTop ::ₘ 0⟩
      ⟨1, 2, WorkerState.waiting ::ₘ WorkerState.waiting ::ₘ 0⟩ :=
    Reachable.tail r7 (Step.enterWait 1 2 (WorkerState.waiting ::ₘ 0))
  have r9 : Reachable ⟨3, 0, WorkerState.atTop ::ₘ WorkerState.atTop ::ₘ 0⟩
      ⟨0, 2, WorkerState.running ::ₘ WorkerState.waiting ::ₘ 0⟩ :=
    Reachable.tail r8 (Step.dequeue 0 2 (WorkerState.waiting ::ₘ 0))
  have r10 : Reachable ⟨3, 0, WorkerState.atTop ::ₘ WorkerState.atTop ::ₘ 0⟩
      ⟨0, 3, WorkerState.atTop ::ₘ WorkerState.waiting ::ₘ 0⟩ :=
    Reachable.tail r9 (Step.finish 0 2 (WorkerState.waiting ::ₘ 0))
  have hr : Reachable ⟨3, 0, WorkerState.atTop ::ₘ WorkerState.atTop ::ₘ 0⟩
      ⟨0, 3, WorkerState.waiting ::ₘ WorkerState.waiting ::ₘ 0⟩ :=
    Reachable.tail r10 (Step.enterWait 0 3 (WorkerState.waiting ::ₘ 0))
  exact C9_wait_barrier 2 3 _ _ (by norm_num)
    ⟨rfl, rfl, by decide, by decide⟩ hr (by unfold busy; decide)

end ThreadPool

end Swarm
